import Mathlib

/-! Task-Scheduler: a verification development of `TaskScheduler/main.c`.

The scheduler keeps a fixed table `task_list[MAX_TASKS]` of task control
blocks.  The table is embedded as a function from slot indices
`Fin MAX_TASKS` to records, an assignment `task_list[i].f = v` as
`Function.update`, and every `for (i = 0; i < MAX_TASKS; i++)` loop as a
traversal of `List.finRange MAX_TASKS` (the indices `0, 1, ..., MAX_TASKS-1`
in increasing order).  `uint8_t` and `uint16_t` fields are natural numbers;
the only arithmetic on them, `delay--`, is reduced modulo `2^16`.

The timer and port registers written by `initScheduler` and by the interrupt
handler are outside the table and are not modelled.  A call through a task
pointer is recorded in a trace, and its effect on the table is a parameter
`body` of the dispatcher.
-/

namespace TaskScheduler

/-! ## Constants (`main.c` lines 12-18) -/

/-- Maximum number of tasks. -/
abbrev MAX_TASKS : Nat := 5

/-- Task state: ready. -/
def RUNNABLE : Nat := 0x00
/-- Task state: the callback is executing. -/
def RUNNING : Nat := 0x01
/-- Task state: slot free, task removed. -/
def STOPPED : Nat := 0x02
/-- Task state, and the value `getTaskStatus` returns for an unknown id. -/
def ERROR : Nat := 0x03

/-! ## Data model (`main.c` lines 27-53) -/

/-- Basic task control block.  `task` is the function pointer, as an address;
`0` is the null pointer. -/
structure tcb_t where
  /-- Task ID, a `uint8_t`. -/
  id : Nat
  /-- Pointer to the task. -/
  task : Nat
  /-- Delay before execution, a `uint16_t`. -/
  delay : Nat
  /-- Interval between subsequent runs, a `uint16_t`. -/
  period : Nat
  /-- Status of task, a `uint8_t`. -/
  status : Nat
deriving DecidableEq, Repr

/-- The task list `tcb_t task_list[MAX_TASKS]`. -/
abbrev TaskList := Fin MAX_TASKS → tcb_t

/-- The slot indices `0 .. MAX_TASKS-1` in the order every loop visits them. -/
def slots : List (Fin MAX_TASKS) := List.finRange MAX_TASKS

/-! ## `initScheduler` (lines 78-94) -/

/-- Body of the loop of `initScheduler` for slot `i`: the five field
assignments of lines 88-92. -/
def initSlot (tl : TaskList) (i : Fin MAX_TASKS) : TaskList :=
  Function.update tl i { id := 0, task := 0x00, delay := 0, period := 0, status := STOPPED }

/-- The table part of `initScheduler`: every slot is reset in turn. -/
def initScheduler (tl : TaskList) : TaskList :=
  slots.foldl initSlot tl

/-! ## `addTask` (lines 99-116) -/

/-- The `while (idx < MAX_TASKS)` loop of `addTask`, entered with `idx` the
head of the remaining indices.  A slot whose status is `STOPPED` receives the
five assignments of lines 106-110 and `done` is set, which leaves the loop;
otherwise `idx++`. -/
def addTaskFrom (id task period : Nat) (tl : TaskList) : List (Fin MAX_TASKS) → TaskList
  | [] => tl
  | idx :: rest =>
    if (tl idx).status = STOPPED then
      Function.update tl idx
        { id := id, task := task, delay := period, period := period, status := RUNNABLE }
    else
      addTaskFrom id task period tl rest

/-- Adds a new task to the task list. -/
def addTask (id task period : Nat) (tl : TaskList) : TaskList :=
  addTaskFrom id task period tl slots

/-! ## `deleteTask` (lines 120-130) -/

/-- The loop of `deleteTask`: the first slot whose `id` matches gets status
`STOPPED`, then `break`. -/
def deleteTaskFrom (id : Nat) (tl : TaskList) : List (Fin MAX_TASKS) → TaskList
  | [] => tl
  | i :: rest =>
    if (tl i).id = id then
      Function.update tl i { tl i with status := STOPPED }
    else
      deleteTaskFrom id tl rest

/-- Remove task from task list. -/
def deleteTask (id : Nat) (tl : TaskList) : TaskList :=
  deleteTaskFrom id tl slots

/-! ## `getTaskStatus` (lines 134-142) -/

/-- The loop of `getTaskStatus`: the status of the first slot whose `id`
matches is returned; `ERROR` when the loop runs to its end. -/
def getTaskStatusFrom (id : Nat) (tl : TaskList) : List (Fin MAX_TASKS) → Nat
  | [] => ERROR
  | i :: rest =>
    if (tl i).id = id then (tl i).status else getTaskStatusFrom id tl rest

/-- Gets the task status. -/
def getTaskStatus (id : Nat) (tl : TaskList) : Nat :=
  getTaskStatusFrom id tl slots

/-! ## The timer interrupt (lines 164-173) -/

/-- The statement `delay--` on a `uint16_t`: subtraction of one modulo `2^16`. -/
def dec16 (d : Nat) : Nat := (d + (2 ^ 16 - 1)) % 2 ^ 16

/-- Body of the loop of the interrupt handler for slot `i`. -/
def tickSlot (tl : TaskList) (i : Fin MAX_TASKS) : TaskList :=
  if (tl i).status = RUNNABLE then
    Function.update tl i { tl i with delay := dec16 (tl i).delay }
  else tl

/-- The table part of `ISR(TIMER1_OVF_vect)`: one tick. -/
def ISR_TIMER1_OVF (tl : TaskList) : TaskList :=
  slots.foldl tickSlot tl

/-! ## `dispatchTasks` (lines 145-158) -/

/-- One call through a task pointer: the slot it was made for and the pointer. -/
structure Call where
  /-- Index of the dispatched slot. -/
  slot : Fin MAX_TASKS
  /-- The task pointer that was called. -/
  task : Nat
deriving DecidableEq, Repr

/-- Scheduler state as the dispatcher sees it: the table and the trace of the
calls made so far, oldest first. -/
structure Sched where
  /-- The task list. -/
  task_list : TaskList
  /-- The calls made so far. -/
  calls : List Call

/-- Body of the loop of `dispatchTasks` for slot `i`.  `body p tl` is the table
the callback at address `p` leaves when it is entered with table `tl`. -/
def dispatchSlot (body : Nat → TaskList → TaskList) (s : Sched) (i : Fin MAX_TASKS) : Sched :=
  if (s.task_list i).delay = 0 ∧ (s.task_list i).status = RUNNABLE then
    let t1 := Function.update s.task_list i { s.task_list i with status := RUNNING }
    let t2 := body (t1 i).task t1
    let t3 := Function.update t2 i { t2 i with delay := (t2 i).period }
    let t4 := Function.update t3 i { t3 i with status := RUNNABLE }
    { task_list := t4, calls := s.calls ++ [{ slot := i, task := (t1 i).task }] }
  else s

/-- One dispatch pass. -/
def dispatchTasks (body : Nat → TaskList → TaskList) (s : Sched) : Sched :=
  slots.foldl (dispatchSlot body) s

/-- A callback environment in which no callback writes to the task list. -/
def Inert (body : Nat → TaskList → TaskList) : Prop :=
  ∀ p tl, body p tl = tl

/-- The callbacks of `main.c` (`Task1` .. `Task4`) only toggle bits of `PORTD`
and a private flag: on the task list they are the identity. -/
def portTasks : Nat → TaskList → TaskList := fun _ tl => tl

/-! ## Sequences of scheduler operations -/

/-- The operations that act on the task list. -/
inductive Op where
  /-- `addTask(id, task, period)`. -/
  | add (id task period : Nat)
  /-- `deleteTask(id)`. -/
  | del (id : Nat)
  /-- One timer interrupt. -/
  | tick
  /-- One pass of `dispatchTasks`. -/
  | dispatch
deriving DecidableEq, Repr

/-- Effect of one operation. -/
def step (body : Nat → TaskList → TaskList) (s : Sched) : Op → Sched
  | .add id task period => { s with task_list := addTask id task period s.task_list }
  | .del id => { s with task_list := deleteTask id s.task_list }
  | .tick => { s with task_list := ISR_TIMER1_OVF s.task_list }
  | .dispatch => dispatchTasks body s

/-- Effect of a sequence of operations, first operation first. -/
def run (body : Nat → TaskList → TaskList) (ops : List Op) (s : Sched) : Sched :=
  ops.foldl (step body) s

/-- The ids passed to `addTask` in a sequence of operations. -/
def addedIds : List Op → List Nat
  | [] => []
  | .add id _ _ :: ops => id :: addedIds ops
  | _ :: ops => addedIds ops

/-- A table with arbitrary contents before `initScheduler` has run: here all
zero, which is what static storage holds at start-up. -/
def zeroList : TaskList := fun _ =>
  { id := 0, task := 0, delay := 0, period := 0, status := 0 }

/-- Effect of a sequence of `addTask` calls, each given as `(id, task, period)`,
first call first. -/
def addAll (adds : List (Nat × Nat × Nat)) (tl : TaskList) : TaskList :=
  adds.foldl (fun t a => addTask a.1 a.2.1 a.2.2 t) tl

/-- Number of active (non-`STOPPED`) records of a table. -/
def activeCount (tl : TaskList) : Nat :=
  (slots.filter (fun i => decide ((tl i).status ≠ STOPPED))).length

/-- A table whose five slots all hold an active task. -/
def fullList : TaskList := fun i =>
  { id := i.val + 1, task := 0x100, delay := 4, period := 4, status := RUNNABLE }

/-- What one tick does to a single record. -/
def tickRecord (r : tcb_t) : tcb_t :=
  if r.status = RUNNABLE then { r with delay := dec16 r.delay } else r

/-- The test of line 150: slot `i` is due. -/
def isDue (tl : TaskList) (i : Fin MAX_TASKS) : Bool :=
  decide ((tl i).delay = 0 ∧ (tl i).status = RUNNABLE)

/-- What one dispatch pass does to a single record when the callback leaves
the table alone. -/
def dispatchRecord (r : tcb_t) : tcb_t :=
  if r.delay = 0 ∧ r.status = RUNNABLE then
    { r with delay := r.period, status := RUNNABLE }
  else r

/-- The call the dispatcher makes for slot `i` of table `tl`. -/
def callOf (tl : TaskList) (i : Fin MAX_TASKS) : Call :=
  { slot := i, task := (tl i).task }

/-- A table with two free slots, 1 and 3, between active tasks. -/
def holeList : TaskList := fun i =>
  if i.val = 1 ∨ i.val = 3 then
    { id := i.val + 1, task := 0x100, delay := 2, period := 4, status := STOPPED }
  else
    { id := i.val + 1, task := 0x100, delay := 2, period := 4, status := RUNNABLE }

/-- The slots below `k` are `RUNNABLE` and the slots from `k` on are `STOPPED`. -/
def FilledTo (k : Nat) (tl : TaskList) : Prop :=
  ∀ j : Fin MAX_TASKS, (j.val < k → (tl j).status = RUNNABLE) ∧ (k ≤ j.val → (tl j).status = STOPPED)

/-- A table in which id 2 is carried by slots 1, 2 and 4. -/
def dupList : TaskList := fun i =>
  if i.val = 0 then { id := 1, task := 0x100, delay := 1, period := 1, status := RUNNABLE }
  else if i.val = 1 then { id := 2, task := 0x104, delay := 5, period := 9, status := RUNNABLE }
  else if i.val = 2 then { id := 2, task := 0x108, delay := 0, period := 3, status := RUNNABLE }
  else if i.val = 3 then { id := 3, task := 0x10c, delay := 0, period := 6, status := RUNNING }
  else { id := 2, task := 0x110, delay := 0, period := 0, status := RUNNABLE }

/-- The main loop seen from the table: `n` rounds, each one tick followed by
one dispatch pass. -/
def rounds : Nat → List Op
  | 0 => []
  | n + 1 => rounds n ++ [Op.tick, Op.dispatch]

/-- Whether an operation is a call of `addTask`. -/
def isAdd : Op → Bool
  | .add _ _ _ => true
  | _ => false

/-- Number of timer interrupts in a sequence of operations. -/
def tickCount : List Op → Nat
  | [] => 0
  | .tick :: ops => tickCount ops + 1
  | _ :: ops => tickCount ops

/-- A sequence made of ticks and dispatch passes only. -/
abbrev TicksAndPasses (ops : List Op) : Prop :=
  ∀ op ∈ ops, op = Op.tick ∨ op = Op.dispatch

/-- What one round (a tick, then a dispatch pass) does to a single record when
the callback leaves the table alone. -/
def roundRecord (r : tcb_t) : tcb_t := dispatchRecord (tickRecord r)

/-- Whether a record is due once the next tick has been counted. -/
def dueAfterTick (r : tcb_t) : Bool :=
  decide ((tickRecord r).delay = 0 ∧ (tickRecord r).status = RUNNABLE)

/-- Whether slot `i` is the slot the next `addTask` claims: it is `STOPPED`
and no slot below it is. -/
def isClaimed (tl : TaskList) (i : Fin MAX_TASKS) : Bool :=
  decide ((tl i).status = STOPPED ∧ ∀ j, j < i → (tl j).status ≠ STOPPED)

/-- Whether no `addTask` of the sequence, run from state `s`, claims slot `i`. -/
def slotKept (body : Nat → TaskList → TaskList) (i : Fin MAX_TASKS) : List Op → Sched → Bool
  | [], _ => true
  | op :: ops, s =>
    !(isAdd op && isClaimed s.task_list i) && slotKept body i ops (step body s op)

/-- The unique-id discipline along a run from state `s`: every `addTask id` of
the sequence is made when no non-`STOPPED` record carries `id`. -/
def disciplined (body : Nat → TaskList → TaskList) : List Op → Sched → Bool
  | [], _ => true
  | op :: ops, s =>
    (match op with
      | .add id _ _ =>
        decide (∀ j, (s.task_list j).status ≠ STOPPED → (s.task_list j).id ≠ id)
      | _ => true)
    && disciplined body ops (step body s op)

/-- No two active records share an id, and no removed slot sits below an
active record with the same id. -/
def UniqueIds (tl : TaskList) : Prop :=
  (∀ i j, (tl i).status ≠ STOPPED → (tl j).status ≠ STOPPED → (tl i).id = (tl j).id → i = j)
    ∧ (∀ i j, (tl i).status = STOPPED → (tl j).status ≠ STOPPED → (tl i).id = (tl j).id →
        ¬ i < j)

/-- Scheduler state with bookkeeping of when each slot was last claimed: the
number of operations performed so far, and for each slot the position in the
sequence of operations of the last `addTask` that claimed it. -/
structure Tagged where
  /-- The scheduler state proper. -/
  sched : Sched
  /-- Number of operations performed so far. -/
  clock : Nat
  /-- Position of the last `addTask` that claimed each slot. -/
  stamp : Fin MAX_TASKS → Nat

/-- One operation on the state with bookkeeping: an `addTask` stamps the slot
it claims with its own position. -/
def stepTagged (body : Nat → TaskList → TaskList) (g : Tagged) (op : Op) : Tagged :=
  { sched := step body g.sched op
    clock := g.clock + 1
    stamp := fun i =>
      if isAdd op && isClaimed g.sched.task_list i then g.clock else g.stamp i }

/-- A sequence of operations on the state with bookkeeping. -/
def runTagged (body : Nat → TaskList → TaskList) (ops : List Op) (g : Tagged) : Tagged :=
  ops.foldl (stepTagged body) g

/-- The state with bookkeeping right after `initScheduler`. -/
def startTagged (tl0 : TaskList) : Tagged :=
  { sched := ⟨initScheduler tl0, []⟩, clock := 0, stamp := fun _ => 0 }

/-- Whether operation `op` on table `tl` keeps insertion order: it is not an
`addTask`, or the slot the `addTask` claims has only `STOPPED` slots above it. -/
def orderCheck (op : Op) (tl : TaskList) : Bool :=
  !isAdd op ||
    decide (∀ i j, isClaimed tl i = true → i < j → (tl j).status = STOPPED)

/-- Whether no `addTask` of the sequence, run from state `s`, claims a slot
below a slot that holds an active task. -/
def orderKept (body : Nat → TaskList → TaskList) : List Op → Sched → Bool
  | [], _ => true
  | op :: ops, s => orderCheck op s.task_list && orderKept body ops (step body s op)

/-! ## Facts about the slot order -/

lemma mem_slots (i : Fin MAX_TASKS) : i ∈ slots := List.mem_finRange i

lemma slots_nodup : slots.Nodup := List.nodup_finRange MAX_TASKS

lemma slots_pairwise : slots.Pairwise (· < ·) := List.pairwise_lt_finRange MAX_TASKS

/-- The traversal reaches slot `i` after exactly the slots below it. -/
lemma slots_split (i : Fin MAX_TASKS) :
    ∃ l1 l2, slots = l1 ++ i :: l2 ∧ (∀ j ∈ l1, j < i) ∧ (∀ j ∈ l2, i < j) := by
  obtain ⟨l1, l2, h⟩ := List.append_of_mem (mem_slots i)
  have hp := slots_pairwise
  rw [h, List.pairwise_append] at hp
  refine ⟨l1, l2, h, fun j hj => hp.2.2 j hj i (List.mem_cons_self _ _), ?_⟩
  exact fun j hj => (List.pairwise_cons.mp hp.2.1).1 j hj

/-- Every slot below `i` is visited before `i`. -/
lemma mem_of_lt_split {i : Fin MAX_TASKS} {l1 l2 : List (Fin MAX_TASKS)}
    (h : slots = l1 ++ i :: l2) (h2 : ∀ j ∈ l2, i < j) (j : Fin MAX_TASKS) (hj : j < i) :
    j ∈ l1 := by
  have hm := mem_slots j
  rw [h, List.mem_append, List.mem_cons] at hm
  rcases hm with hm | hm | hm
  · exact hm
  · exact absurd hj (by rw [hm]; exact lt_irrefl _)
  · exact absurd hj (not_lt.mpr (le_of_lt (h2 j hm)))

/-- A satisfiable decidable property of slots has a lowest-indexed slot. -/
lemma exists_lowest (p : Fin MAX_TASKS → Prop) (h : ∃ k, p k) :
    ∃ i, p i ∧ ∀ j, j < i → ¬ p j := by
  obtain ⟨m, hm, hmin⟩ := (wellFounded_lt (α := Fin MAX_TASKS)).has_min {k | p k} h
  exact ⟨m, hm, fun j hj hpj => hmin j hpj hj⟩

/-! ## Loops that stop at the first matching slot -/

lemma addTaskFrom_skip (id task period : Nat) (tl : TaskList) (l1 r : List (Fin MAX_TASKS))
    (h : ∀ j ∈ l1, (tl j).status ≠ STOPPED) :
    addTaskFrom id task period tl (l1 ++ r) = addTaskFrom id task period tl r := by
  induction l1 with
  | nil => rfl
  | cons a l ih =>
    have ha : (tl a).status ≠ STOPPED := h a (List.mem_cons_self _ _)
    simp only [List.cons_append, addTaskFrom, if_neg ha]
    exact ih (fun j hj => h j (List.mem_cons_of_mem _ hj))

lemma deleteTaskFrom_skip (id : Nat) (tl : TaskList) (l1 r : List (Fin MAX_TASKS))
    (h : ∀ j ∈ l1, (tl j).id ≠ id) :
    deleteTaskFrom id tl (l1 ++ r) = deleteTaskFrom id tl r := by
  induction l1 with
  | nil => rfl
  | cons a l ih =>
    have ha : (tl a).id ≠ id := h a (List.mem_cons_self _ _)
    simp only [List.cons_append, deleteTaskFrom, if_neg ha]
    exact ih (fun j hj => h j (List.mem_cons_of_mem _ hj))

lemma getTaskStatusFrom_skip (id : Nat) (tl : TaskList) (l1 r : List (Fin MAX_TASKS))
    (h : ∀ j ∈ l1, (tl j).id ≠ id) :
    getTaskStatusFrom id tl (l1 ++ r) = getTaskStatusFrom id tl r := by
  induction l1 with
  | nil => rfl
  | cons a l ih =>
    have ha : (tl a).id ≠ id := h a (List.mem_cons_self _ _)
    simp only [List.cons_append, getTaskStatusFrom, if_neg ha]
    exact ih (fun j hj => h j (List.mem_cons_of_mem _ hj))

/-- `addTask` writes the new record into the lowest-indexed `STOPPED` slot. -/
lemma addTask_eq_update (id task period : Nat) (tl : TaskList) (i : Fin MAX_TASKS)
    (hi : (tl i).status = STOPPED) (hlow : ∀ j, j < i → (tl j).status ≠ STOPPED) :
    addTask id task period tl = Function.update tl i
      { id := id, task := task, delay := period, period := period, status := RUNNABLE } := by
  obtain ⟨l1, l2, hs, h1, _⟩ := slots_split i
  rw [addTask, hs, addTaskFrom_skip _ _ _ _ _ _ (fun j hj => hlow j (h1 j hj))]
  simp only [addTaskFrom, if_pos hi]

/-- Without a `STOPPED` slot `addTask` changes nothing. -/
lemma addTask_eq_self (id task period : Nat) (tl : TaskList)
    (h : ∀ j, (tl j).status ≠ STOPPED) : addTask id task period tl = tl := by
  have := addTaskFrom_skip id task period tl slots [] (fun j _ => h j)
  rw [List.append_nil] at this
  rw [addTask, this]; rfl

/-- `deleteTask` stops the lowest-indexed slot that carries the id. -/
lemma deleteTask_eq_update (id : Nat) (tl : TaskList) (i : Fin MAX_TASKS)
    (hi : (tl i).id = id) (hlow : ∀ j, j < i → (tl j).id ≠ id) :
    deleteTask id tl = Function.update tl i { tl i with status := STOPPED } := by
  obtain ⟨l1, l2, hs, h1, _⟩ := slots_split i
  rw [deleteTask, hs, deleteTaskFrom_skip _ _ _ _ (fun j hj => hlow j (h1 j hj))]
  simp only [deleteTaskFrom, if_pos hi]

/-- Without a slot that carries the id `deleteTask` changes nothing. -/
lemma deleteTask_eq_self (id : Nat) (tl : TaskList) (h : ∀ j, (tl j).id ≠ id) :
    deleteTask id tl = tl := by
  have := deleteTaskFrom_skip id tl slots [] (fun j _ => h j)
  rw [List.append_nil] at this
  rw [deleteTask, this]; rfl

/-- `getTaskStatus` reads the lowest-indexed slot that carries the id. -/
lemma getTaskStatus_eq_status (id : Nat) (tl : TaskList) (i : Fin MAX_TASKS)
    (hi : (tl i).id = id) (hlow : ∀ j, j < i → (tl j).id ≠ id) :
    getTaskStatus id tl = (tl i).status := by
  obtain ⟨l1, l2, hs, h1, _⟩ := slots_split i
  rw [getTaskStatus, hs, getTaskStatusFrom_skip _ _ _ _ (fun j hj => hlow j (h1 j hj))]
  simp only [getTaskStatusFrom, if_pos hi]

/-- Without a slot that carries the id `getTaskStatus` returns `ERROR`. -/
lemma getTaskStatus_eq_error (id : Nat) (tl : TaskList) (h : ∀ j, (tl j).id ≠ id) :
    getTaskStatus id tl = ERROR := by
  have := getTaskStatusFrom_skip id tl slots [] (fun j _ => h j)
  rw [List.append_nil] at this
  rw [getTaskStatus, this]; rfl

/-! ## Loops that visit every slot -/

/-- A loop that rewrites each visited slot from its own old contents. -/
lemma foldl_update_apply (f : tcb_t → tcb_t) (l : List (Fin MAX_TASKS)) (hl : l.Nodup)
    (tl : TaskList) (j : Fin MAX_TASKS) :
    l.foldl (fun t a => Function.update t a (f (t a))) tl j
      = if j ∈ l then f (tl j) else tl j := by
  induction l generalizing tl with
  | nil => simp
  | cons a l ih =>
    rw [List.nodup_cons] at hl
    rw [List.foldl_cons, ih hl.2]
    by_cases hja : j = a
    · subst hja
      simp [hl.1]
    · by_cases hjl : j ∈ l
      · simp [hjl, hja, Function.update_noteq hja]
      · simp [hjl, hja, Function.update_noteq hja]

lemma initScheduler_apply (tl : TaskList) (j : Fin MAX_TASKS) :
    initScheduler tl j = { id := 0, task := 0, delay := 0, period := 0, status := STOPPED } := by
  have h := foldl_update_apply
    (fun _ => { id := 0, task := 0, delay := 0, period := 0, status := STOPPED })
    slots slots_nodup tl j
  rw [if_pos (mem_slots j)] at h
  exact h

lemma tickSlot_eq (tl : TaskList) (i : Fin MAX_TASKS) :
    tickSlot tl i = Function.update tl i (tickRecord (tl i)) := by
  unfold tickSlot tickRecord
  split
  · rfl
  · exact (Function.update_eq_self i tl).symm

lemma ISR_apply (tl : TaskList) (j : Fin MAX_TASKS) :
    ISR_TIMER1_OVF tl j = tickRecord (tl j) := by
  have h := foldl_update_apply tickRecord slots slots_nodup tl j
  rw [if_pos (mem_slots j)] at h
  have hf : tickSlot = fun t a => Function.update t a (tickRecord (t a)) := by
    funext t a
    exact tickSlot_eq t a
  rw [← h, ISR_TIMER1_OVF, hf]

/-! ## The dispatch pass with callbacks that leave the table alone -/

lemma dispatchSlot_eq {body : Nat → TaskList → TaskList} (hb : Inert body) (s : Sched)
    (i : Fin MAX_TASKS) :
    dispatchSlot body s i =
      { task_list := Function.update s.task_list i (dispatchRecord (s.task_list i)),
        calls := s.calls ++ (if isDue s.task_list i then [callOf s.task_list i] else []) } := by
  unfold dispatchSlot dispatchRecord isDue callOf
  by_cases h : (s.task_list i).delay = 0 ∧ (s.task_list i).status = RUNNABLE
  · have hd : decide ((s.task_list i).delay = 0 ∧ (s.task_list i).status = RUNNABLE) = true :=
      decide_eq_true h
    simp only [if_pos h, hd, if_true, hb _ _, Function.update_same, Function.update_idem]
  · have hd : decide ((s.task_list i).delay = 0 ∧ (s.task_list i).status = RUNNABLE) = false :=
      decide_eq_false h
    simp only [if_neg h, hd, Function.update_eq_self, List.append_nil, Bool.false_eq_true,
      if_false]

lemma dispatch_foldl {body : Nat → TaskList → TaskList} (hb : Inert body)
    (l : List (Fin MAX_TASKS)) (hl : l.Nodup) (s : Sched) :
    (l.foldl (dispatchSlot body) s).task_list
        = l.foldl (fun t a => Function.update t a (dispatchRecord (t a))) s.task_list
      ∧ (l.foldl (dispatchSlot body) s).calls
        = s.calls ++ (l.filter (isDue s.task_list)).map (callOf s.task_list) := by
  induction l generalizing s with
  | nil => simp
  | cons a l ih =>
    rw [List.nodup_cons] at hl
    obtain ⟨ih1, ih2⟩ := ih hl.2 (dispatchSlot body s a)
    rw [List.foldl_cons, List.foldl_cons, ih1, ih2, dispatchSlot_eq hb]
    refine ⟨rfl, ?_⟩
    have hne : ∀ j ∈ l, j ≠ a := fun j hj hja => hl.1 (hja ▸ hj)
    have hf : l.filter (isDue (Function.update s.task_list a (dispatchRecord (s.task_list a))))
        = l.filter (isDue s.task_list) := by
      apply List.filter_congr
      intro j hj
      simp only [isDue, Function.update_noteq (hne j hj)]
    have hm : ∀ l2 : List (Fin MAX_TASKS), (∀ j ∈ l2, j ∈ l) →
        l2.map (callOf (Function.update s.task_list a (dispatchRecord (s.task_list a))))
          = l2.map (callOf s.task_list) := by
      intro l2 h2
      apply List.map_congr_left
      intro j hj
      simp only [callOf, Function.update_noteq (hne j (h2 j hj))]
    simp only [hf, hm _ (fun j hj => (List.mem_filter.mp hj).1), List.filter_cons]
    by_cases hd : isDue s.task_list a = true
    · simp [hd]
    · simp [hd]

lemma dispatchTasks_task_list {body : Nat → TaskList → TaskList} (hb : Inert body)
    (s : Sched) (j : Fin MAX_TASKS) :
    (dispatchTasks body s).task_list j = dispatchRecord (s.task_list j) := by
  rw [dispatchTasks, (dispatch_foldl hb slots slots_nodup s).1,
    foldl_update_apply dispatchRecord slots slots_nodup, if_pos (mem_slots j)]

lemma dispatchTasks_calls {body : Nat → TaskList → TaskList} (hb : Inert body) (s : Sched) :
    (dispatchTasks body s).calls
      = s.calls ++ (slots.filter (isDue s.task_list)).map (callOf s.task_list) := by
  rw [dispatchTasks, (dispatch_foldl hb slots slots_nodup s).2]

/-! ## Filling the table -/

lemma addTask_filledTo (id task period : Nat) (tl : TaskList) (k : Nat) (hk : k < MAX_TASKS)
    (h : FilledTo k tl) : FilledTo (k + 1) (addTask id task period tl) := by
  have hi : (tl ⟨k, hk⟩).status = STOPPED := (h ⟨k, hk⟩).2 (le_refl k)
  have hlow : ∀ j : Fin MAX_TASKS, j < ⟨k, hk⟩ → (tl j).status ≠ STOPPED := by
    intro j hj
    rw [(h j).1 hj]
    decide
  rw [addTask_eq_update id task period tl ⟨k, hk⟩ hi hlow]
  intro j
  by_cases hjk : j = ⟨k, hk⟩
  · subst hjk
    simp
  · have hv : j.val ≠ k := fun hv => hjk (Fin.ext hv)
    rw [Function.update_noteq hjk]
    exact ⟨fun hlt => (h j).1 (by omega), fun hle => (h j).2 (by omega)⟩

lemma addAll_filledTo (adds : List (Nat × Nat × Nat)) (tl : TaskList) (k : Nat)
    (h : FilledTo k tl) (hk : k + adds.length ≤ MAX_TASKS) :
    FilledTo (k + adds.length) (addAll adds tl) := by
  induction adds generalizing tl k with
  | nil => exact h
  | cons a l ih =>
    rw [List.length_cons] at hk
    have hstep := addTask_filledTo a.1 a.2.1 a.2.2 tl k (by omega) h
    have := ih (addTask a.1 a.2.1 a.2.2 tl) (k + 1) hstep (by omega)
    rw [List.length_cons, show k + (l.length + 1) = k + 1 + l.length by omega]
    exact this

lemma initScheduler_filledTo (tl : TaskList) : FilledTo 0 (initScheduler tl) := by
  intro j
  rw [initScheduler_apply]
  exact ⟨fun hlt => absurd hlt (Nat.not_lt_zero _), fun _ => rfl⟩

lemma addAll_append (l1 l2 : List (Nat × Nat × Nat)) (tl : TaskList) :
    addAll (l1 ++ l2) tl = addAll l2 (addAll l1 tl) := by
  simp [addAll, List.foldl_append]

lemma activeCount_of_full (tl : TaskList) (h : ∀ j, (tl j).status ≠ STOPPED) :
    activeCount tl = MAX_TASKS := by
  unfold activeCount
  rw [List.filter_eq_self.mpr (fun j _ => by simpa using h j)]
  exact List.length_finRange MAX_TASKS

/-! ## Table management: `addTask` and `getTaskStatus` -/

/-- C1: on a table with at least one `STOPPED` slot, `addTask` writes the new
task into the lowest-indexed `STOPPED` slot, which ends with the given id and
callback, `delay = period`, `period = period` and status `RUNNABLE`; every
other slot is unchanged in every field. -/
theorem addTask_writes_lowest_stopped (tl : TaskList) (id task period : Nat)
    (h : ∃ k, (tl k).status = STOPPED) :
    ∃ i, (tl i).status = STOPPED ∧ (∀ j, (tl j).status = STOPPED → i ≤ j)
      ∧ addTask id task period tl i
          = { id := id, task := task, delay := period, period := period, status := RUNNABLE }
      ∧ ∀ j, j ≠ i → addTask id task period tl j = tl j := by
  obtain ⟨i, hi, hlow⟩ := exists_lowest (fun k => (tl k).status = STOPPED) h
  refine ⟨i, hi, fun j hj => not_lt.mp (fun hlt => hlow j hlt hj), ?_, ?_⟩
  · rw [addTask_eq_update id task period tl i hi hlow, Function.update_same]
  · intro j hj
    rw [addTask_eq_update id task period tl i hi hlow, Function.update_noteq hj]

/-- Witness of C1 on a table whose slots 1 and 3 are free. -/
theorem addTask_writes_lowest_stopped_witness :
    (∃ k, (holeList k).status = STOPPED)
      ∧ ∃ i, (holeList i).status = STOPPED ∧ (∀ j, (holeList j).status = STOPPED → i ≤ j)
        ∧ addTask 9 0x200 7 holeList i
            = { id := 9, task := 0x200, delay := 7, period := 7, status := RUNNABLE }
        ∧ ∀ j, j ≠ i → addTask 9 0x200 7 holeList j = holeList j :=
  ⟨⟨1, by decide⟩, addTask_writes_lowest_stopped holeList 9 0x200 7 ⟨1, by decide⟩⟩

/-- C2: on a table without a `STOPPED` slot `addTask` leaves the whole table
unchanged; and after `initScheduler`, `MAX_TASKS` calls of `addTask` leave
exactly `MAX_TASKS` active records, and one more call leaves that table as it
is. -/
theorem addTask_full_table_noop :
    (∀ (tl : TaskList) (id task period : Nat),
        (∀ i, (tl i).status ≠ STOPPED) → addTask id task period tl = tl)
      ∧ (∀ (tl0 : TaskList) (adds : List (Nat × Nat × Nat)) (extra : Nat × Nat × Nat),
          adds.length = MAX_TASKS →
            activeCount (addAll adds (initScheduler tl0)) = MAX_TASKS
            ∧ activeCount (addAll (adds ++ [extra]) (initScheduler tl0)) = MAX_TASKS
            ∧ addAll (adds ++ [extra]) (initScheduler tl0)
                = addAll adds (initScheduler tl0)) := by
  refine ⟨fun tl id task period h => addTask_eq_self id task period tl h, ?_⟩
  intro tl0 adds extra hlen
  have hfill := addAll_filledTo adds (initScheduler tl0) 0 (initScheduler_filledTo tl0)
    (by omega)
  have hfull : ∀ j, (addAll adds (initScheduler tl0) j).status ≠ STOPPED := by
    intro j
    rw [(hfill j).1 (by omega)]
    decide
  have hsame : addAll (adds ++ [extra]) (initScheduler tl0)
      = addAll adds (initScheduler tl0) := by
    rw [addAll_append]
    exact addTask_eq_self _ _ _ _ hfull
  exact ⟨activeCount_of_full _ hfull, by rw [hsame]; exact activeCount_of_full _ hfull, hsame⟩

/-- Witness of C2: a sixth task on the full table, and six adds after
`initScheduler`. -/
theorem addTask_full_table_noop_witness :
    ((∀ i, (fullList i).status ≠ STOPPED) ∧ addTask 9 0x200 7 fullList = fullList)
      ∧ ([(1, 0x100, 1), (2, 0x104, 2), (3, 0x108, 3), (4, 0x10c, 6), (5, 0x110, 9)].length
            = MAX_TASKS
          ∧ activeCount (addAll [(1, 0x100, 1), (2, 0x104, 2), (3, 0x108, 3), (4, 0x10c, 6),
              (5, 0x110, 9)] (initScheduler zeroList)) = MAX_TASKS
          ∧ activeCount (addAll ([(1, 0x100, 1), (2, 0x104, 2), (3, 0x108, 3), (4, 0x10c, 6),
              (5, 0x110, 9)] ++ [(6, 0x114, 4)]) (initScheduler zeroList)) = MAX_TASKS
          ∧ addAll ([(1, 0x100, 1), (2, 0x104, 2), (3, 0x108, 3), (4, 0x10c, 6),
              (5, 0x110, 9)] ++ [(6, 0x114, 4)]) (initScheduler zeroList)
              = addAll [(1, 0x100, 1), (2, 0x104, 2), (3, 0x108, 3), (4, 0x10c, 6),
                  (5, 0x110, 9)] (initScheduler zeroList)) :=
  ⟨⟨by decide, addTask_full_table_noop.1 fullList 9 0x200 7 (by decide)⟩,
    ⟨rfl, addTask_full_table_noop.2 zeroList _ (6, 0x114, 4) rfl⟩⟩

/-- C3: on an empty table (every slot `STOPPED`, whatever ids the slots still
carry), and so on the freshly initialised table, `getTaskStatus id` right after
`addTask id callback period` returns `RUNNABLE`. -/
theorem getTaskStatus_after_addTask_on_empty (id task period : Nat) :
    (∀ tl : TaskList, (∀ i, (tl i).status = STOPPED) →
        getTaskStatus id (addTask id task period tl) = RUNNABLE)
      ∧ ∀ tl0 : TaskList,
        getTaskStatus id (addTask id task period (initScheduler tl0)) = RUNNABLE := by
  have key : ∀ tl : TaskList, (∀ i, (tl i).status = STOPPED) →
      getTaskStatus id (addTask id task period tl) = RUNNABLE := by
    intro tl h
    have hlow : ∀ (p : Fin MAX_TASKS → Prop) (j : Fin MAX_TASKS), j < 0 → p j :=
      fun _ j hj => absurd hj (Fin.not_lt_zero j)
    rw [addTask_eq_update id task period tl 0 (h 0) (hlow _)]
    rw [getTaskStatus_eq_status id _ 0 (by rw [Function.update_same]) (hlow _),
      Function.update_same]
  exact ⟨key, fun tl0 => key _ (fun i => by rw [initScheduler_apply])⟩

/-- Witness of C3: an empty table whose slots all still carry id 5. -/
theorem getTaskStatus_after_addTask_on_empty_witness :
    (∀ i, ((fun _ => ⟨5, 0x100, 3, 4, STOPPED⟩ : TaskList) i).status = STOPPED)
      ∧ getTaskStatus 5 (addTask 5 0x200 7 (fun _ => ⟨5, 0x100, 3, 4, STOPPED⟩)) = RUNNABLE :=
  ⟨fun _ => rfl,
    (getTaskStatus_after_addTask_on_empty 5 0x200 7).1 (fun _ => ⟨5, 0x100, 3, 4, STOPPED⟩)
      (fun _ => rfl)⟩

/-! ## What each operation does to the `id` fields -/

lemma with_status_eq_self (r : tcb_t) (st : Nat) (h : r.status = st) :
    { r with status := st } = r := by
  cases r
  simp only [tcb_t.mk.injEq, true_and]
  exact h.symm

lemma addTask_cases (id task period : Nat) (tl : TaskList) :
    addTask id task period tl = tl ∨ ∃ i, (tl i).status = STOPPED ∧
      addTask id task period tl = Function.update tl i
        { id := id, task := task, delay := period, period := period, status := RUNNABLE } := by
  by_cases h : ∃ k, (tl k).status = STOPPED
  · obtain ⟨i, hi, hlow⟩ := exists_lowest (fun k => (tl k).status = STOPPED) h
    exact Or.inr ⟨i, hi, addTask_eq_update id task period tl i hi hlow⟩
  · exact Or.inl (addTask_eq_self id task period tl (fun j hj => h ⟨j, hj⟩))

lemma deleteTask_cases (id : Nat) (tl : TaskList) :
    deleteTask id tl = tl ∨ ∃ i, (tl i).id = id ∧ (∀ j, j < i → (tl j).id ≠ id) ∧
      deleteTask id tl = Function.update tl i { tl i with status := STOPPED } := by
  by_cases h : ∃ k, (tl k).id = id
  · obtain ⟨i, hi, hlow⟩ := exists_lowest (fun k => (tl k).id = id) h
    exact Or.inr ⟨i, hi, hlow, deleteTask_eq_update id tl i hi hlow⟩
  · exact Or.inl (deleteTask_eq_self id tl (fun j hj => h ⟨j, hj⟩))

lemma deleteTask_id (id : Nat) (tl : TaskList) (j : Fin MAX_TASKS) :
    (deleteTask id tl j).id = (tl j).id := by
  rcases deleteTask_cases id tl with h | ⟨i, _, _, h⟩
  · rw [h]
  · rw [h]
    by_cases hj : j = i
    · subst hj
      rw [Function.update_same]
    · rw [Function.update_noteq hj]

lemma tickRecord_id (r : tcb_t) : (tickRecord r).id = r.id := by
  unfold tickRecord
  split <;> rfl

lemma dispatchRecord_id (r : tcb_t) : (dispatchRecord r).id = r.id := by
  unfold dispatchRecord
  split <;> rfl

lemma addTask_no_id (id task period : Nat) (tl : TaskList) (x : Nat) (hx : id ≠ x)
    (h : ∀ j, (tl j).id ≠ x) (j : Fin MAX_TASKS) : (addTask id task period tl j).id ≠ x := by
  rcases addTask_cases id task period tl with h1 | ⟨i, _, h1⟩
  · rw [h1]
    exact h j
  · rw [h1]
    by_cases hj : j = i
    · subst hj
      rw [Function.update_same]
      exact hx
    · rw [Function.update_noteq hj]
      exact h j

/-- An id that no slot carries and that is not added stays absent. -/
lemma run_no_id {body : Nat → TaskList → TaskList} (hb : Inert body) (x : Nat)
    (ops : List Op) (s : Sched) (h : ∀ j, (s.task_list j).id ≠ x) (hx : x ∉ addedIds ops) :
    ∀ j, ((run body ops s).task_list j).id ≠ x := by
  induction ops generalizing s with
  | nil => exact h
  | cons op ops ih =>
    have hrun : run body (op :: ops) s = run body ops (step body s op) := rfl
    rw [hrun]
    cases op with
    | add id task period =>
      simp only [addedIds, List.mem_cons, not_or] at hx
      exact ih _ (fun j => addTask_no_id id task period s.task_list x (Ne.symm hx.1) h j) hx.2
    | del id =>
      exact ih _ (fun j => by simpa only [step, deleteTask_id] using h j) hx
    | tick =>
      exact ih _ (fun j => by simpa only [step, ISR_apply, tickRecord_id] using h j) hx
    | dispatch =>
      exact ih _ (fun j => by
        simpa only [step, dispatchTasks_task_list hb, dispatchRecord_id] using h j) hx

/-! ## Table management: lookups and `deleteTask` -/

/-- C4, as stated, fails for id 0: right after `initScheduler` no id has been
added, every slot carries id 0 with status `STOPPED`, and `getTaskStatus 0`
returns `STOPPED`, not `ERROR`. -/
theorem getTaskStatus_never_added_zero :
    0 ∉ addedIds [] ∧
      getTaskStatus 0 (run portTasks [] ⟨initScheduler zeroList, []⟩).task_list = STOPPED
      ∧ STOPPED ≠ ERROR := by
  decide

/-- C4, amended: in every table reached from `initScheduler` by a sequence of
`addTask`, `deleteTask`, tick and dispatch operations (callbacks leaving the
table alone), `getTaskStatus id` returns `ERROR` for every id other than 0 that
was never passed to `addTask`. -/
theorem getTaskStatus_never_added_nonzero (body : Nat → TaskList → TaskList)
    (hb : Inert body) (tl0 : TaskList) (ops : List Op) (id : Nat)
    (hid : id ≠ 0) (hnew : id ∉ addedIds ops) :
    getTaskStatus id (run body ops ⟨initScheduler tl0, []⟩).task_list = ERROR := by
  apply getTaskStatus_eq_error
  apply run_no_id hb id ops _ _ hnew
  intro j
  simp only [initScheduler_apply]
  exact Ne.symm hid

/-- Witness of amended C4: id 7 after a run that adds, ticks, dispatches and
deletes other tasks. -/
theorem getTaskStatus_never_added_nonzero_witness :
    Inert portTasks ∧ 7 ≠ 0
      ∧ 7 ∉ addedIds [Op.add 1 0x100 1, Op.add 2 0x104 2, Op.tick, Op.dispatch, Op.del 1]
      ∧ getTaskStatus 7 (run portTasks
          [Op.add 1 0x100 1, Op.add 2 0x104 2, Op.tick, Op.dispatch, Op.del 1]
          ⟨initScheduler zeroList, []⟩).task_list = ERROR :=
  ⟨fun _ _ => rfl, by decide, by decide,
    getTaskStatus_never_added_nonzero portTasks (fun _ _ => rfl) zeroList _ 7
      (by decide) (by decide)⟩

/-- C5: `deleteTask id` sets the status of the lowest-indexed slot whose `id`
field equals `id`, whatever its status, to `STOPPED`; that slot's id, callback,
delay and period and every other slot, later slots with the same id included,
are unchanged. -/
theorem deleteTask_stops_first_match (tl : TaskList) (id : Nat) (i : Fin MAX_TASKS)
    (hi : (tl i).id = id) (hlow : ∀ j, j < i → (tl j).id ≠ id) :
    (deleteTask id tl i).status = STOPPED
      ∧ (deleteTask id tl i).id = (tl i).id
      ∧ (deleteTask id tl i).task = (tl i).task
      ∧ (deleteTask id tl i).delay = (tl i).delay
      ∧ (deleteTask id tl i).period = (tl i).period
      ∧ ∀ j, j ≠ i → deleteTask id tl j = tl j := by
  rw [deleteTask_eq_update id tl i hi hlow, Function.update_same]
  refine ⟨rfl, rfl, rfl, rfl, rfl, fun j hj => ?_⟩
  rw [Function.update_noteq hj]

/-- Witness of C5: deleting id 2 of `dupList`, whose lowest slot with that id
is slot 1. -/
theorem deleteTask_stops_first_match_witness :
    ((dupList 1).id = 2 ∧ ∀ j : Fin MAX_TASKS, j < 1 → (dupList j).id ≠ 2)
      ∧ ((deleteTask 2 dupList 1).status = STOPPED
        ∧ (deleteTask 2 dupList 1).id = (dupList 1).id
        ∧ (deleteTask 2 dupList 1).task = (dupList 1).task
        ∧ (deleteTask 2 dupList 1).delay = (dupList 1).delay
        ∧ (deleteTask 2 dupList 1).period = (dupList 1).period
        ∧ ∀ j, j ≠ 1 → deleteTask 2 dupList j = dupList j) :=
  ⟨⟨by decide, by decide⟩, deleteTask_stops_first_match dupList 2 1 (by decide) (by decide)⟩

/-- C6: when no non-`STOPPED` record carries the id (no slot carries it, or only
`STOPPED` slots do), `deleteTask id` leaves every field of every slot unchanged. -/
theorem deleteTask_absent_noop (tl : TaskList) (id : Nat)
    (h : ∀ i, (tl i).status ≠ STOPPED → (tl i).id ≠ id) : deleteTask id tl = tl := by
  rcases deleteTask_cases id tl with h1 | ⟨i, hi, _, h1⟩
  · exact h1
  · have hst : (tl i).status = STOPPED := by
      by_contra hne
      exact h i hne hi
    rw [h1, with_status_eq_self _ _ hst, Function.update_eq_self]

/-- Witness of C6: id 2 of `holeList` is carried by the removed slot 1 only. -/
theorem deleteTask_absent_noop_witness :
    (∀ i, (holeList i).status ≠ STOPPED → (holeList i).id ≠ 2)
      ∧ deleteTask 2 holeList = holeList :=
  ⟨by decide, deleteTask_absent_noop holeList 2 (by decide)⟩

/-! ## The tick -/

lemma dec16_int (d : Nat) : ((dec16 d : Nat) : Int) = ((d : Int) - 1) % 2 ^ 16 := by
  unfold dec16
  norm_num
  omega

lemma dec16_pos (d : Nat) (h1 : 1 ≤ d) (h2 : d < 2 ^ 16) : dec16 d = d - 1 := by
  unfold dec16
  norm_num at h2 ⊢
  omega

lemma filter_slot_eq (l : List (Fin MAX_TASKS)) (hl : l.Nodup) (i : Fin MAX_TASKS) :
    l.filter (fun j => decide (j = i)) = if i ∈ l then [i] else [] := by
  induction l with
  | nil => simp
  | cons a l ih =>
    rw [List.nodup_cons] at hl
    rw [List.filter_cons, ih hl.2]
    by_cases hai : a = i
    · subst hai
      simp [hl.1]
    · have hia : ¬ i = a := fun h => hai h.symm
      simp [hai, hia]

/-- The calls one dispatch pass makes for slot `i`, starting from an empty trace. -/
lemma dispatchTasks_calls_of_slot {body : Nat → TaskList → TaskList} (hb : Inert body)
    (tl : TaskList) (i : Fin MAX_TASKS) :
    (dispatchTasks body ⟨tl, []⟩).calls.filter (fun c => decide (c.slot = i))
      = if isDue tl i then [callOf tl i] else [] := by
  rw [dispatchTasks_calls hb, List.nil_append, List.filter_map]
  have hcomp : ((fun c : Call => decide (c.slot = i)) ∘ callOf tl)
      = fun j => decide (j = i) := by
    funext j
    simp [callOf]
  rw [hcomp, List.filter_filter]
  have hswap : (slots.filter (fun a => (decide (a = i) && isDue tl a)))
      = (slots.filter (fun j => decide (j = i))).filter (isDue tl) := by
    rw [List.filter_filter]
    apply List.filter_congr
    intro j _
    exact Bool.and_comm _ _
  rw [hswap, filter_slot_eq slots slots_nodup i, if_pos (mem_slots i)]
  by_cases hd : isDue tl i = true
  · simp [hd]
  · simp [hd]

/-- C7: one tick replaces the delay of every `RUNNABLE` record by
`(delay - 1) mod 2^16` and does nothing else to it: a delay `d >= 1` becomes
`d - 1`, and a delay 0 is not clamped but wraps to 65535, so that the record is
not due at the next dispatch pass. -/
theorem tick_decrements_runnable (tl : TaskList) (i : Fin MAX_TASKS)
    (h : (tl i).status = RUNNABLE) :
    ISR_TIMER1_OVF tl i = { tl i with delay := (ISR_TIMER1_OVF tl i).delay }
      ∧ ((ISR_TIMER1_OVF tl i).delay : Int) = (((tl i).delay : Int) - 1) % 2 ^ 16
      ∧ (1 ≤ (tl i).delay → (tl i).delay < 2 ^ 16 →
          (ISR_TIMER1_OVF tl i).delay = (tl i).delay - 1)
      ∧ ((tl i).delay = 0 →
          (ISR_TIMER1_OVF tl i).delay = 65535
          ∧ ∀ body, Inert body →
              (dispatchTasks body ⟨ISR_TIMER1_OVF tl, []⟩).calls.filter
                (fun c => decide (c.slot = i)) = []) := by
  have hrec : ISR_TIMER1_OVF tl i = { tl i with delay := dec16 (tl i).delay } := by
    rw [ISR_apply, tickRecord, if_pos h]
  have hdelay : (ISR_TIMER1_OVF tl i).delay = dec16 (tl i).delay := by rw [hrec]
  refine ⟨?_, ?_, ?_, ?_⟩
  · rw [hdelay]
    exact hrec
  · rw [hdelay]
    exact dec16_int _
  · intro h1 h2
    rw [hdelay]
    exact dec16_pos _ h1 h2
  · intro h0
    have h65 : (ISR_TIMER1_OVF tl i).delay = 65535 := by
      rw [hdelay, h0]
      rfl
    refine ⟨h65, fun body hb => ?_⟩
    rw [dispatchTasks_calls_of_slot hb]
    have hnd : isDue (ISR_TIMER1_OVF tl) i = false := by
      simp [isDue, h65]
    simp [hnd]

/-- Witness of C7: slot 0 of `dupList` has delay 1, slot 2 has delay 0; both
are `RUNNABLE`. -/
theorem tick_decrements_runnable_witness :
    ((dupList 0).status = RUNNABLE ∧ 1 ≤ (dupList 0).delay ∧ (dupList 0).delay < 2 ^ 16
        ∧ (ISR_TIMER1_OVF dupList 0).delay = (dupList 0).delay - 1)
      ∧ ((dupList 2).status = RUNNABLE ∧ (dupList 2).delay = 0
        ∧ (ISR_TIMER1_OVF dupList 2).delay = 65535
        ∧ (dispatchTasks portTasks ⟨ISR_TIMER1_OVF dupList, []⟩).calls.filter
            (fun c => decide (c.slot = 2)) = []) :=
  ⟨⟨by decide, by decide, by decide,
      (tick_decrements_runnable dupList 0 (by decide)).2.2.1 (by decide) (by decide)⟩,
    ⟨by decide, by decide,
      ((tick_decrements_runnable dupList 2 (by decide)).2.2.2 (by decide)).1,
      ((tick_decrements_runnable dupList 2 (by decide)).2.2.2 (by decide)).2 portTasks
        (fun _ _ => rfl)⟩⟩

/-- C8: a tick leaves every record whose status is not `RUNNABLE` (`STOPPED`,
`RUNNING` or `ERROR`) completely unchanged, its delay included, and changes no
field other than `delay` of any record. -/
theorem tick_isolation (tl : TaskList) (i : Fin MAX_TASKS) :
    ((tl i).status ≠ RUNNABLE → ISR_TIMER1_OVF tl i = tl i)
      ∧ (ISR_TIMER1_OVF tl i).id = (tl i).id
      ∧ (ISR_TIMER1_OVF tl i).task = (tl i).task
      ∧ (ISR_TIMER1_OVF tl i).period = (tl i).period
      ∧ (ISR_TIMER1_OVF tl i).status = (tl i).status := by
  rw [ISR_apply]
  unfold tickRecord
  by_cases h : (tl i).status = RUNNABLE
  · rw [if_pos h]
    exact ⟨fun hne => absurd h hne, rfl, rfl, rfl, rfl⟩
  · rw [if_neg h]
    exact ⟨fun _ => rfl, rfl, rfl, rfl, rfl⟩

/-- Witness of C8: slot 3 of `dupList` is `RUNNING` with delay 0, slot 1 of
`holeList` is `STOPPED` with delay 2. -/
theorem tick_isolation_witness :
    ((dupList 3).status ≠ RUNNABLE ∧ ISR_TIMER1_OVF dupList 3 = dupList 3)
      ∧ ((holeList 1).status ≠ RUNNABLE ∧ ISR_TIMER1_OVF holeList 1 = holeList 1) :=
  ⟨⟨by decide, (tick_isolation dupList 3).1 (by decide)⟩,
    ⟨by decide, (tick_isolation holeList 1).1 (by decide)⟩⟩

/-! ## The dispatch pass -/

/-- C9: with callbacks that do not modify the table, one dispatch pass invokes
exactly the callbacks of the slots that have `delay == 0` and status `RUNNABLE`
at the start of the pass, each once and in increasing slot order; afterwards
each invoked slot has `delay = period` and status `RUNNABLE` with its other
fields as before, and every slot that was not due is unchanged. -/
theorem dispatch_pass (body : Nat → TaskList → TaskList) (hb : Inert body) (tl : TaskList)
    (calls : List Call) :
    ∃ made : List Call,
      (dispatchTasks body ⟨tl, calls⟩).calls = calls ++ made
      ∧ (made.map Call.slot).Pairwise (· < ·)
      ∧ (∀ i, i ∈ made.map Call.slot ↔ ((tl i).delay = 0 ∧ (tl i).status = RUNNABLE))
      ∧ (∀ c ∈ made, c.task = (tl c.slot).task)
      ∧ ∀ i,
        (((tl i).delay = 0 ∧ (tl i).status = RUNNABLE) →
          (dispatchTasks body ⟨tl, calls⟩).task_list i
            = { tl i with delay := (tl i).period, status := RUNNABLE })
        ∧ (¬ ((tl i).delay = 0 ∧ (tl i).status = RUNNABLE) →
          (dispatchTasks body ⟨tl, calls⟩).task_list i = tl i) := by
  have hslot : ((slots.filter (isDue tl)).map (callOf tl)).map Call.slot
      = slots.filter (isDue tl) := by
    rw [List.map_map]
    exact List.map_id _
  refine ⟨(slots.filter (isDue tl)).map (callOf tl), dispatchTasks_calls hb _, ?_, ?_, ?_, ?_⟩
  · rw [hslot]
    exact List.Pairwise.sublist (List.filter_sublist _) slots_pairwise
  · intro i
    rw [hslot, List.mem_filter]
    simp [isDue, mem_slots]
  · intro c hc
    obtain ⟨j, _, hj⟩ := List.mem_map.mp hc
    rw [← hj]
    rfl
  · intro i
    rw [dispatchTasks_task_list hb]
    unfold dispatchRecord
    exact ⟨fun h => by rw [if_pos h], fun h => by rw [if_neg h]⟩

/-- Witness of C9 on `dupList`, where slots 2 and 4 are due and slot 3 has
delay 0 but status `RUNNING`. -/
theorem dispatch_pass_witness :
    Inert portTasks
      ∧ (dispatchTasks portTasks ⟨dupList, []⟩).calls = [⟨2, 0x108⟩, ⟨4, 0x110⟩]
      ∧ ∃ made : List Call,
        (dispatchTasks portTasks ⟨dupList, []⟩).calls = [] ++ made
        ∧ (made.map Call.slot).Pairwise (· < ·)
        ∧ (∀ i, i ∈ made.map Call.slot ↔ ((dupList i).delay = 0 ∧ (dupList i).status = RUNNABLE))
        ∧ (∀ c ∈ made, c.task = (dupList c.slot).task)
        ∧ ∀ i,
          (((dupList i).delay = 0 ∧ (dupList i).status = RUNNABLE) →
            (dispatchTasks portTasks ⟨dupList, []⟩).task_list i
              = { dupList i with delay := (dupList i).period, status := RUNNABLE })
          ∧ (¬ ((dupList i).delay = 0 ∧ (dupList i).status = RUNNABLE) →
            (dispatchTasks portTasks ⟨dupList, []⟩).task_list i = dupList i) :=
  ⟨fun _ _ => rfl, by decide, dispatch_pass portTasks (fun _ _ => rfl) dupList []⟩

/-! ## Ticks followed by a dispatch pass -/

lemma run_append (body : Nat → TaskList → TaskList) (l1 l2 : List Op) (s : Sched) :
    run body (l1 ++ l2) s = run body l2 (run body l1 s) := by
  simp [run, List.foldl_append]

lemma run_ticks (body : Nat → TaskList → TaskList) (k : Nat) (s : Sched) :
    run body (List.replicate k Op.tick) s
      = { task_list := ISR_TIMER1_OVF^[k] s.task_list, calls := s.calls } := by
  induction k generalizing s with
  | zero => rfl
  | succ k ih =>
    have hrun : run body (List.replicate (k + 1) Op.tick) s
        = run body (List.replicate k Op.tick) (step body s Op.tick) := rfl
    rw [hrun, ih]
    rfl

/-- A `RUNNABLE` record with delay `d` has delay `d - k` after `k <= d` ticks. -/
lemma ticks_countdown (tl : TaskList) (i : Fin MAX_TASKS) (d : Nat) (hd : d < 2 ^ 16)
    (hs : (tl i).status = RUNNABLE) (hdel : (tl i).delay = d) (k : Nat) (hk : k ≤ d) :
    ISR_TIMER1_OVF^[k] tl i = { tl i with delay := d - k } := by
  induction k with
  | zero =>
    rw [Function.iterate_zero, id_eq, Nat.sub_zero, ← hdel]
  | succ k ih =>
    rw [Function.iterate_succ_apply', ISR_apply, ih (by omega), tickRecord, if_pos hs]
    have : dec16 (d - k) = d - (k + 1) := by
      rw [dec16_pos (d - k) (by omega) (by omega)]
      omega
    simp only [this]

/-- C10: a slot that is `RUNNABLE` with `delay = period = p`, `p` in
`0..65535`, has after exactly `p` ticks followed by one dispatch pass been
invoked exactly once, and has delay `p` again and status `RUNNABLE`. -/
theorem steady_state_periodicity (body : Nat → TaskList → TaskList) (hb : Inert body)
    (tl : TaskList) (i : Fin MAX_TASKS) (p : Nat) (hp : p < 2 ^ 16)
    (hs : (tl i).status = RUNNABLE) (hdel : (tl i).delay = p) (hper : (tl i).period = p) :
    (run body (List.replicate p Op.tick ++ [Op.dispatch]) ⟨tl, []⟩).calls.filter
        (fun c => decide (c.slot = i)) = [⟨i, (tl i).task⟩]
      ∧ ((run body (List.replicate p Op.tick ++ [Op.dispatch]) ⟨tl, []⟩).task_list i).delay = p
      ∧ ((run body (List.replicate p Op.tick ++ [Op.dispatch]) ⟨tl, []⟩).task_list i).status
          = RUNNABLE := by
  have hrun : run body (List.replicate p Op.tick ++ [Op.dispatch]) ⟨tl, []⟩
      = dispatchTasks body ⟨ISR_TIMER1_OVF^[p] tl, []⟩ := by
    rw [run_append, run_ticks]
    rfl
  have hslot : ISR_TIMER1_OVF^[p] tl i = { tl i with delay := 0 } := by
    rw [ticks_countdown tl i p hp hs hdel p (le_refl p), Nat.sub_self]
  have hdue : isDue (ISR_TIMER1_OVF^[p] tl) i = true := by
    simp [isDue, hslot, hs]
  have htl : (dispatchTasks body ⟨ISR_TIMER1_OVF^[p] tl, []⟩).task_list i
      = dispatchRecord { tl i with delay := 0 } := by
    rw [dispatchTasks_task_list hb]
    exact congrArg dispatchRecord hslot
  rw [hrun, dispatchTasks_calls_of_slot hb, htl]
  refine ⟨?_, ?_, ?_⟩
  · simp [hdue, callOf, hslot]
  · simp [dispatchRecord, hs, hper]
  · simp [dispatchRecord, hs]

/-- Witness of C10: a task just added with period 3 to the initialised table. -/
theorem steady_state_periodicity_witness :
    Inert portTasks ∧ 3 < 2 ^ 16
      ∧ (addTask 5 0x100 3 (initScheduler zeroList) 0).status = RUNNABLE
      ∧ (addTask 5 0x100 3 (initScheduler zeroList) 0).delay = 3
      ∧ (addTask 5 0x100 3 (initScheduler zeroList) 0).period = 3
      ∧ ((run portTasks (List.replicate 3 Op.tick ++ [Op.dispatch])
            ⟨addTask 5 0x100 3 (initScheduler zeroList), []⟩).calls.filter
            (fun c => decide (c.slot = 0))
          = [⟨0, (addTask 5 0x100 3 (initScheduler zeroList) 0).task⟩]
        ∧ ((run portTasks (List.replicate 3 Op.tick ++ [Op.dispatch])
            ⟨addTask 5 0x100 3 (initScheduler zeroList), []⟩).task_list 0).delay = 3
        ∧ ((run portTasks (List.replicate 3 Op.tick ++ [Op.dispatch])
            ⟨addTask 5 0x100 3 (initScheduler zeroList), []⟩).task_list 0).status = RUNNABLE) :=
  ⟨fun _ _ => rfl, by decide, by decide, by decide, by decide,
    steady_state_periodicity portTasks (fun _ _ => rfl)
      (addTask 5 0x100 3 (initScheduler zeroList)) 0 3 (by decide) (by decide) (by decide)
      (by decide)⟩

/-! ## Runs, one operation at a time -/

lemma run_cons (body : Nat → TaskList → TaskList) (op : Op) (ops : List Op) (s : Sched) :
    run body (op :: ops) s = run body ops (step body s op) := rfl

lemma run_snoc (body : Nat → TaskList → TaskList) (ops : List Op) (op : Op) (s : Sched) :
    run body (ops ++ [op]) s = step body (run body ops s) op := by
  simp [run, List.foldl_append]

lemma inert_eq {body : Nat → TaskList → TaskList} (hb : Inert body) : body = portTasks :=
  funext fun p => funext fun tl => hb p tl

/-- The calls for slot `i` after one dispatch pass, whatever the trace before. -/
lemma dispatchTasks_calls_filter {body : Nat → TaskList → TaskList} (hb : Inert body)
    (s : Sched) (i : Fin MAX_TASKS) :
    (dispatchTasks body s).calls.filter (fun c => decide (c.slot = i))
      = s.calls.filter (fun c => decide (c.slot = i))
        ++ (if isDue s.task_list i then [callOf s.task_list i] else []) := by
  have h0 := dispatchTasks_calls_of_slot hb s.task_list i
  rw [dispatchTasks_calls hb, List.nil_append] at h0
  rw [dispatchTasks_calls hb, List.filter_append, h0]

/-- A pass over a table without a due slot calls nothing and writes nothing,
whatever the callbacks would do. -/
lemma foldl_dispatchSlot_idle (body : Nat → TaskList → TaskList) (l : List (Fin MAX_TASKS))
    (s : Sched) (h : ∀ i, ¬ ((s.task_list i).delay = 0 ∧ (s.task_list i).status = RUNNABLE)) :
    l.foldl (dispatchSlot body) s = s := by
  induction l with
  | nil => rfl
  | cons a l ih =>
    have hstep : dispatchSlot body s a = s := by
      unfold dispatchSlot
      rw [if_neg (h a)]
    rw [List.foldl_cons, hstep, ih]

lemma tickRecord_of_not_runnable (r : tcb_t) (h : r.status ≠ RUNNABLE) : tickRecord r = r := by
  unfold tickRecord
  rw [if_neg h]

lemma dispatchRecord_of_not_runnable (r : tcb_t) (h : r.status ≠ RUNNABLE) :
    dispatchRecord r = r := by
  unfold dispatchRecord
  rw [if_neg (fun hd => h hd.2)]

/-- A `STOPPED` slot is neither written nor called by ticks and dispatch passes. -/
lemma run_stopped_slot {body : Nat → TaskList → TaskList} (hb : Inert body)
    (i : Fin MAX_TASKS) (ops : List Op) (hops : TicksAndPasses ops) (s : Sched)
    (hst : (s.task_list i).status = STOPPED) :
    (run body ops s).task_list i = s.task_list i
      ∧ (run body ops s).calls.filter (fun c => decide (c.slot = i))
          = s.calls.filter (fun c => decide (c.slot = i)) := by
  have hne : ∀ r : tcb_t, r.status = STOPPED → r.status ≠ RUNNABLE := by
    intro r hr
    rw [hr]
    decide
  induction ops generalizing s with
  | nil => exact ⟨rfl, rfl⟩
  | cons op ops ih =>
    have hrest : TicksAndPasses ops := fun o ho => hops o (List.mem_cons_of_mem _ ho)
    rw [run_cons]
    rcases hops op (List.mem_cons_self _ _) with hop | hop
    · subst hop
      have h1 : (step body s Op.tick).task_list i = s.task_list i := by
        show ISR_TIMER1_OVF s.task_list i = s.task_list i
        rw [ISR_apply, tickRecord_of_not_runnable _ (hne _ hst)]
      obtain ⟨ih1, ih2⟩ := ih hrest (step body s Op.tick) (by rw [h1]; exact hst)
      exact ⟨by rw [ih1, h1], by rw [ih2]; rfl⟩
    · subst hop
      have h1 : (step body s Op.dispatch).task_list i = s.task_list i := by
        show (dispatchTasks body s).task_list i = s.task_list i
        rw [dispatchTasks_task_list hb, dispatchRecord_of_not_runnable _ (hne _ hst)]
      have h2 : (step body s Op.dispatch).calls.filter (fun c => decide (c.slot = i))
          = s.calls.filter (fun c => decide (c.slot = i)) := by
        show (dispatchTasks body s).calls.filter _ = _
        have hnd : isDue s.task_list i = false := by
          simp [isDue, hne _ hst]
        rw [dispatchTasks_calls_filter hb, hnd]
        simp
      obtain ⟨ih1, ih2⟩ := ih hrest (step body s Op.dispatch) (by rw [h1]; exact hst)
      exact ⟨by rw [ih1, h1], by rw [ih2, h2]⟩

/-! ## Initialisation, idempotent removal, removed tasks -/

/-- C16: whatever the table held before, `initScheduler` yields the same
table: every slot has status `STOPPED`, id 0, null callback, delay 0 and
period 0; on that table a dispatch pass invokes nothing and a tick changes
nothing. -/
theorem initScheduler_resets (tl : TaskList) :
    (∀ j, initScheduler tl j
        = { id := 0, task := 0, delay := 0, period := 0, status := STOPPED })
      ∧ (∀ tl2 : TaskList, initScheduler tl2 = initScheduler tl)
      ∧ (∀ (body : Nat → TaskList → TaskList) (calls : List Call),
          (dispatchTasks body ⟨initScheduler tl, calls⟩).calls = calls
          ∧ (dispatchTasks body ⟨initScheduler tl, calls⟩).task_list = initScheduler tl)
      ∧ ISR_TIMER1_OVF (initScheduler tl) = initScheduler tl := by
  refine ⟨initScheduler_apply tl, ?_, ?_, ?_⟩
  · intro tl2
    funext j
    rw [initScheduler_apply, initScheduler_apply]
  · intro body calls
    have hidle : dispatchTasks body ⟨initScheduler tl, calls⟩ = ⟨initScheduler tl, calls⟩ := by
      apply foldl_dispatchSlot_idle
      intro i hdue
      have hst : (initScheduler tl i).status = RUNNABLE := hdue.2
      rw [initScheduler_apply] at hst
      exact absurd hst (by decide)
    rw [hidle]
    exact ⟨rfl, rfl⟩
  · funext j
    rw [ISR_apply, initScheduler_apply]
    rfl

/-- C19: `deleteTask` is idempotent on every table: applying `deleteTask id`
twice yields the same table as applying it once. -/
theorem deleteTask_idempotent (tl : TaskList) (id : Nat) :
    deleteTask id (deleteTask id tl) = deleteTask id tl := by
  rcases deleteTask_cases id tl with h | ⟨i, hi, hlow, h⟩
  · rw [h, h]
  · rw [h]
    have hi2 : (Function.update tl i { tl i with status := STOPPED } i).id = id := by
      rw [Function.update_same]
      exact hi
    have hlow2 : ∀ j, j < i →
        (Function.update tl i { tl i with status := STOPPED } j).id ≠ id := by
      intro j hj
      rw [Function.update_noteq (ne_of_lt hj)]
      exact hlow j hj
    rw [deleteTask_eq_update id _ i hi2 hlow2, Function.update_same, Function.update_idem]

/-- C20: a slot whose status is `STOPPED` is never invoked by any sequence of
ticks and dispatch passes, and its delay, period, id and status (and callback)
stay as they are. -/
theorem stopped_slot_never_runs (body : Nat → TaskList → TaskList) (hb : Inert body)
    (tl : TaskList) (i : Fin MAX_TASKS) (hst : (tl i).status = STOPPED)
    (ops : List Op) (hops : TicksAndPasses ops) :
    (run body ops ⟨tl, []⟩).calls.filter (fun c => decide (c.slot = i)) = []
      ∧ ((run body ops ⟨tl, []⟩).task_list i).delay = (tl i).delay
      ∧ ((run body ops ⟨tl, []⟩).task_list i).period = (tl i).period
      ∧ ((run body ops ⟨tl, []⟩).task_list i).id = (tl i).id
      ∧ ((run body ops ⟨tl, []⟩).task_list i).status = STOPPED
      ∧ (run body ops ⟨tl, []⟩).task_list i = tl i := by
  obtain ⟨h1, h2⟩ := run_stopped_slot hb i ops hops ⟨tl, []⟩ hst
  rw [h1, h2]
  exact ⟨rfl, rfl, rfl, rfl, hst, rfl⟩

/-- Witness of C20: slot 1 of `holeList`, a removed task with delay 2, through
three ticks and two passes. -/
theorem stopped_slot_never_runs_witness :
    Inert portTasks ∧ (holeList 1).status = STOPPED
      ∧ TicksAndPasses [Op.tick, Op.tick, Op.dispatch, Op.tick, Op.dispatch]
      ∧ ((run portTasks [Op.tick, Op.tick, Op.dispatch, Op.tick, Op.dispatch]
            ⟨holeList, []⟩).calls.filter (fun c => decide (c.slot = 1)) = []
        ∧ ((run portTasks [Op.tick, Op.tick, Op.dispatch, Op.tick, Op.dispatch]
            ⟨holeList, []⟩).task_list 1).delay = (holeList 1).delay
        ∧ ((run portTasks [Op.tick, Op.tick, Op.dispatch, Op.tick, Op.dispatch]
            ⟨holeList, []⟩).task_list 1).period = (holeList 1).period
        ∧ ((run portTasks [Op.tick, Op.tick, Op.dispatch, Op.tick, Op.dispatch]
            ⟨holeList, []⟩).task_list 1).id = (holeList 1).id
        ∧ ((run portTasks [Op.tick, Op.tick, Op.dispatch, Op.tick, Op.dispatch]
            ⟨holeList, []⟩).task_list 1).status = STOPPED
        ∧ (run portTasks [Op.tick, Op.tick, Op.dispatch, Op.tick, Op.dispatch]
            ⟨holeList, []⟩).task_list 1 = holeList 1) :=
  ⟨fun _ _ => rfl, by decide, by decide,
    stopped_slot_never_runs portTasks (fun _ _ => rfl) holeList 1 (by decide) _ (by decide)⟩

/-! ## One round of the main loop -/

lemma tickRecord_task (r : tcb_t) : (tickRecord r).task = r.task := by
  unfold tickRecord
  split <;> rfl

lemma dispatchRecord_task (r : tcb_t) : (dispatchRecord r).task = r.task := by
  unfold dispatchRecord
  split <;> rfl

lemma run_round (body : Nat → TaskList → TaskList) (s : Sched) :
    run body [Op.tick, Op.dispatch] s
      = dispatchTasks body ⟨ISR_TIMER1_OVF s.task_list, s.calls⟩ := by
  simp only [run, List.foldl_cons, List.foldl_nil, step]

lemma round_task_list {body : Nat → TaskList → TaskList} (hb : Inert body) (s : Sched)
    (j : Fin MAX_TASKS) :
    (run body [Op.tick, Op.dispatch] s).task_list j = roundRecord (s.task_list j) := by
  rw [run_round, dispatchTasks_task_list hb]
  simp only [ISR_apply, roundRecord]

lemma round_calls {body : Nat → TaskList → TaskList} (hb : Inert body) (s : Sched) :
    (run body [Op.tick, Op.dispatch] s).calls
      = s.calls ++ (slots.filter (fun j => dueAfterTick (s.task_list j))).map
          (fun j => { slot := j, task := (s.task_list j).task }) := by
  rw [run_round, dispatchTasks_calls hb]
  have h1 : isDue (ISR_TIMER1_OVF s.task_list) = fun j => dueAfterTick (s.task_list j) := by
    funext j
    simp only [isDue, dueAfterTick, ISR_apply]
  have h2 : callOf (ISR_TIMER1_OVF s.task_list)
      = fun j => { slot := j, task := (s.task_list j).task } := by
    funext j
    simp only [callOf, ISR_apply, tickRecord_task]
  simp only [h1, h2]

lemma slots_eq : slots = [0, 1, 2, 3, 4] := by decide

lemma filter_slots (p : Fin MAX_TASKS → Bool) :
    slots.filter p = (if p 0 then [0] else []) ++ (if p 1 then [1] else [])
      ++ (if p 2 then [2] else []) ++ (if p 3 then [3] else [])
      ++ (if p 4 then [4] else []) := by
  rw [slots_eq]
  cases h0 : p 0 <;> cases h1 : p 1 <;> cases h2 : p 2 <;> cases h3 : p 3 <;>
    cases h4 : p 4 <;> simp [List.filter, h0, h1, h2, h3, h4]

/-! ## The two-task scenario -/

lemma dec16_one : dec16 1 = 0 := dec16_pos 1 (le_refl 1) (by norm_num)

lemma dec16_two : dec16 2 = 1 := dec16_pos 2 (by norm_num) (by norm_num)

/-- The table after `initScheduler`, `addTask(a, ta, 1)` and `addTask(b, tb, 2)`. -/
lemma two_tasks_table (tl0 : TaskList) (a ta b tb : Nat) :
    addTask b tb 2 (addTask a ta 1 (initScheduler tl0))
      = Function.update (Function.update (initScheduler tl0) 0
          { id := a, task := ta, delay := 1, period := 1, status := RUNNABLE }) 1
          { id := b, task := tb, delay := 2, period := 2, status := RUNNABLE } := by
  have h1 : addTask a ta 1 (initScheduler tl0) = Function.update (initScheduler tl0) 0
      { id := a, task := ta, delay := 1, period := 1, status := RUNNABLE } := by
    apply addTask_eq_update
    · rw [initScheduler_apply]
    · intro j hj
      exact absurd hj (Fin.not_lt_zero j)
  rw [h1]
  apply addTask_eq_update
  · rw [Function.update_noteq (by decide), initScheduler_apply]
  · intro j hj
    have hj0 : j = 0 := by
      apply Fin.ext
      have : j.val < 1 := hj
      simp only [Fin.val_zero]
      omega
    subst hj0
    rw [Function.update_same]
    show RUNNABLE ≠ STOPPED
    decide

/-- C11: from an initialised table, after `addTask(A, period 1)` and
`addTask(B, period 2)`, one tick and one dispatch pass invoke A only; one more
tick and dispatch pass invoke A and then B, so that A has been invoked twice
and B once. -/
theorem scenario_two_tasks (body : Nat → TaskList → TaskList) (hb : Inert body)
    (tl0 : TaskList) (a ta b tb : Nat) :
    (run body [Op.add a ta 1, Op.add b tb 2] ⟨initScheduler tl0, []⟩).task_list 0
        = { id := a, task := ta, delay := 1, period := 1, status := RUNNABLE }
      ∧ (run body [Op.add a ta 1, Op.add b tb 2] ⟨initScheduler tl0, []⟩).task_list 1
        = { id := b, task := tb, delay := 2, period := 2, status := RUNNABLE }
      ∧ (run body [Op.add a ta 1, Op.add b tb 2, Op.tick, Op.dispatch]
          ⟨initScheduler tl0, []⟩).calls = [⟨0, ta⟩]
      ∧ (run body [Op.add a ta 1, Op.add b tb 2, Op.tick, Op.dispatch, Op.tick, Op.dispatch]
          ⟨initScheduler tl0, []⟩).calls = [⟨0, ta⟩] ++ [⟨0, ta⟩, ⟨1, tb⟩] := by
  have hinit := initScheduler_apply tl0
  have htab := two_tasks_table tl0 a ta b tb
  obtain ⟨T, hT⟩ : ∃ T, T = addTask b tb 2 (addTask a ta 1 (initScheduler tl0)) := ⟨_, rfl⟩
  have e0 : T 0 = { id := a, task := ta, delay := 1, period := 1, status := RUNNABLE } := by
    rw [hT, htab, Function.update_noteq (by decide), Function.update_same]
  have e1 : T 1 = { id := b, task := tb, delay := 2, period := 2, status := RUNNABLE } := by
    rw [hT, htab, Function.update_same]
  have e2 : T 2 = { id := 0, task := 0, delay := 0, period := 0, status := STOPPED } := by
    rw [hT, htab, Function.update_noteq (by decide), Function.update_noteq (by decide), hinit]
  have e3 : T 3 = { id := 0, task := 0, delay := 0, period := 0, status := STOPPED } := by
    rw [hT, htab, Function.update_noteq (by decide), Function.update_noteq (by decide), hinit]
  have e4 : T 4 = { id := 0, task := 0, delay := 0, period := 0, status := STOPPED } := by
    rw [hT, htab, Function.update_noteq (by decide), Function.update_noteq (by decide), hinit]
  have hadd : ∀ ops, run body (Op.add a ta 1 :: Op.add b tb 2 :: ops) ⟨initScheduler tl0, []⟩
      = run body ops ⟨T, []⟩ := by
    intro ops
    rw [hT, run_cons, run_cons]
    simp only [step]
  have hround1 : (run body [Op.tick, Op.dispatch] ⟨T, []⟩).calls = [⟨0, ta⟩] := by
    rw [round_calls hb, filter_slots]
    simp [e0, e1, e2, e3, e4, dueAfterTick, tickRecord, dec16_one, dec16_two, RUNNABLE, STOPPED]
  refine ⟨?_, ?_, ?_, ?_⟩
  · rw [hadd]
    exact e0
  · rw [hadd]
    exact e1
  · rw [hadd]
    exact hround1
  · rw [hadd]
    have hsplit : run body [Op.tick, Op.dispatch, Op.tick, Op.dispatch] ⟨T, []⟩
        = run body [Op.tick, Op.dispatch] (run body [Op.tick, Op.dispatch] ⟨T, []⟩) :=
      run_append body [Op.tick, Op.dispatch] [Op.tick, Op.dispatch] ⟨T, []⟩
    rw [hsplit, round_calls hb, hround1, filter_slots]
    simp [round_task_list hb, e0, e1, e2, e3, e4, roundRecord, dispatchRecord, dueAfterTick,
      tickRecord, dec16_one, dec16_two, RUNNABLE, STOPPED]

/-- Witness of C11 with the first two tasks of `main`. -/
theorem scenario_two_tasks_witness :
    Inert portTasks
      ∧ (run portTasks [Op.add 1 0x100 1, Op.add 2 0x104 2, Op.tick, Op.dispatch]
          ⟨initScheduler zeroList, []⟩).calls = [⟨0, 0x100⟩]
      ∧ (run portTasks
          [Op.add 1 0x100 1, Op.add 2 0x104 2, Op.tick, Op.dispatch, Op.tick, Op.dispatch]
          ⟨initScheduler zeroList, []⟩).calls = [⟨0, 0x100⟩] ++ [⟨0, 0x100⟩, ⟨1, 0x104⟩] :=
  ⟨fun _ _ => rfl,
    (scenario_two_tasks portTasks (fun _ _ => rfl) zeroList 1 0x100 2 0x104).2.2.1,
    (scenario_two_tasks portTasks (fun _ _ => rfl) zeroList 1 0x100 2 0x104).2.2.2⟩

/-! ## Tasks with period 0 -/

lemma round_calls_filter {body : Nat → TaskList → TaskList} (hb : Inert body) (s : Sched)
    (i : Fin MAX_TASKS) :
    (run body [Op.tick, Op.dispatch] s).calls.filter (fun c => decide (c.slot = i))
      = s.calls.filter (fun c => decide (c.slot = i))
        ++ (if dueAfterTick (s.task_list i) then [⟨i, (s.task_list i).task⟩] else []) := by
  rw [run_round, dispatchTasks_calls_filter hb]
  simp only [isDue, dueAfterTick, callOf, ISR_apply, tickRecord_task]

lemma dec16_lt (d : Nat) : dec16 d < 65536 := by
  unfold dec16
  norm_num
  omega

lemma dec16_step (d n : Nat) :
    (dec16 d + 65536 - n % 65536) % 65536 = (d + 65536 - (n + 1) % 65536) % 65536 := by
  unfold dec16
  norm_num
  omega

/-- The record of a period-0 task through ticks and dispatch passes: only the
delay moves, one step down modulo `2^16` per tick. -/
lemma run_busy_slot {body : Nat → TaskList → TaskList} (hb : Inert body)
    (i : Fin MAX_TASKS) (id task : Nat) (ops : List Op) (hops : TicksAndPasses ops)
    (s : Sched) (d : Nat) (hd : d < 65536)
    (hrec : s.task_list i
      = { id := id, task := task, delay := d, period := 0, status := RUNNABLE }) :
    (run body ops s).task_list i
      = { id := id, task := task, delay := (d + 65536 - tickCount ops % 65536) % 65536,
          period := 0, status := RUNNABLE } := by
  induction ops generalizing s d with
  | nil =>
    have : (d + 65536 - tickCount [] % 65536) % 65536 = d := by
      simp only [tickCount]
      omega
    rw [this]
    exact hrec
  | cons op ops ih =>
    have hrest : TicksAndPasses ops := fun o ho => hops o (List.mem_cons_of_mem _ ho)
    rw [run_cons]
    rcases hops op (List.mem_cons_self _ _) with hop | hop
    · subst hop
      have h1 : (step body s Op.tick).task_list i
          = { id := id, task := task, delay := dec16 d, period := 0, status := RUNNABLE } := by
        show ISR_TIMER1_OVF s.task_list i = _
        rw [ISR_apply, hrec]
        rfl
      rw [ih hrest (step body s Op.tick) (dec16 d) (dec16_lt d) h1]
      simp only [tickCount, dec16_step]
    · subst hop
      have h1 : (step body s Op.dispatch).task_list i
          = { id := id, task := task, delay := d, period := 0, status := RUNNABLE } := by
        show (dispatchTasks body s).task_list i = _
        rw [dispatchTasks_task_list hb, hrec]
        unfold dispatchRecord
        by_cases h0 : d = 0
        · subst h0
          rfl
        · rw [if_neg (fun h => h0 h.1)]
      rw [ih hrest (step body s Op.dispatch) d hd h1]
      rfl

lemma tickCount_of_passes (ops : List Op) (h : ∀ op ∈ ops, op = Op.dispatch) :
    tickCount ops = 0 := by
  induction ops with
  | nil => rfl
  | cons op ops ih =>
    have hop := h op (List.mem_cons_self _ _)
    subst hop
    exact ih (fun o ho => h o (List.mem_cons_of_mem _ ho))

/-- C12, as stated, fails: a task added with period 0 has delay 0; one tick
wraps the delay to 65535, and the next dispatch pass invokes nothing. -/
theorem busy_task_skipped_after_tick :
    addTask 5 0x100 0 (initScheduler zeroList) 0
        = { id := 5, task := 0x100, delay := 0, period := 0, status := RUNNABLE }
      ∧ TicksAndPasses [Op.tick]
      ∧ ((run portTasks [Op.tick] ⟨addTask 5 0x100 0 (initScheduler zeroList), []⟩).task_list
          0).delay = 65535
      ∧ (dispatchTasks portTasks
          ⟨(run portTasks [Op.tick] ⟨addTask 5 0x100 0 (initScheduler zeroList), []⟩).task_list,
            []⟩).calls = [] := by
  decide

/-- C12, amended: for a task added with period 0 and not deleted, in every
state reached from the add by ticks and dispatch passes, the next dispatch pass
invokes the task exactly when the number of ticks so far is a multiple of
`2^16`; in particular it does so after any sequence of dispatch passes alone. -/
theorem busy_task_dispatch (body : Nat → TaskList → TaskList) (hb : Inert body)
    (tl0 : TaskList) (i : Fin MAX_TASKS) (hi : (tl0 i).status = STOPPED)
    (hlow : ∀ j, j < i → (tl0 j).status ≠ STOPPED) (id task : Nat)
    (ops : List Op) (hops : TicksAndPasses ops) :
    (dispatchTasks body
        ⟨(run body ops ⟨addTask id task 0 tl0, []⟩).task_list, []⟩).calls.filter
          (fun c => decide (c.slot = i))
        = (if tickCount ops % 65536 = 0 then [⟨i, task⟩] else [])
      ∧ ((∀ op ∈ ops, op = Op.dispatch) →
          (dispatchTasks body
            ⟨(run body ops ⟨addTask id task 0 tl0, []⟩).task_list, []⟩).calls.filter
              (fun c => decide (c.slot = i)) = [⟨i, task⟩]) := by
  have hrec : (⟨addTask id task 0 tl0, []⟩ : Sched).task_list i
      = { id := id, task := task, delay := 0, period := 0, status := RUNNABLE } := by
    show addTask id task 0 tl0 i = _
    rw [addTask_eq_update id task 0 tl0 i hi hlow, Function.update_same]
  have hslot := run_busy_slot hb i id task ops hops ⟨addTask id task 0 tl0, []⟩ 0
    (by norm_num) hrec
  have hmain : (dispatchTasks body
      ⟨(run body ops ⟨addTask id task 0 tl0, []⟩).task_list, []⟩).calls.filter
        (fun c => decide (c.slot = i))
      = (if tickCount ops % 65536 = 0 then [⟨i, task⟩] else []) := by
    rw [dispatchTasks_calls_of_slot hb]
    by_cases hz : tickCount ops % 65536 = 0
    · have hdue : isDue (run body ops ⟨addTask id task 0 tl0, []⟩).task_list i = true := by
        simp only [isDue, hslot, hz]
        rfl
      rw [hdue, if_pos hz, if_pos rfl]
      simp only [callOf, hslot]
    · have hdue : isDue (run body ops ⟨addTask id task 0 tl0, []⟩).task_list i = false := by
        simp only [isDue, hslot]
        apply decide_eq_false
        intro h
        have : (0 + 65536 - tickCount ops % 65536) % 65536 = 0 := h.1
        omega
      rw [hdue, if_neg hz]
      rfl
  refine ⟨hmain, fun hall => ?_⟩
  rw [hmain, tickCount_of_passes ops hall]
  rfl

/-- Witness of amended C12: a period-0 task through three dispatch passes. -/
theorem busy_task_dispatch_witness :
    Inert portTasks ∧ (initScheduler zeroList 0).status = STOPPED
      ∧ (∀ j : Fin MAX_TASKS, j < 0 → (initScheduler zeroList j).status ≠ STOPPED)
      ∧ TicksAndPasses [Op.dispatch, Op.dispatch, Op.dispatch]
      ∧ (∀ op ∈ [Op.dispatch, Op.dispatch, Op.dispatch], op = Op.dispatch)
      ∧ (dispatchTasks portTasks
          ⟨(run portTasks [Op.dispatch, Op.dispatch, Op.dispatch]
            ⟨addTask 5 0x100 0 (initScheduler zeroList), []⟩).task_list, []⟩).calls.filter
              (fun c => decide (c.slot = 0)) = [⟨0, 0x100⟩] :=
  ⟨fun _ _ => rfl, by decide, by decide, by decide, by decide,
    (busy_task_dispatch portTasks (fun _ _ => rfl) (initScheduler zeroList) 0 (by decide)
      (by decide) 5 0x100 [Op.dispatch, Op.dispatch, Op.dispatch] (by decide)).2 (by decide)⟩

/-! ## Long-run periodicity -/

/-- Quotient and remainder of `n + 1` by `p` from those of `n`. -/
lemma succ_div_mod (n p : Nat) (hp : 0 < p) :
    (n % p + 1 = p ∧ (n + 1) % p = 0 ∧ (n + 1) / p = n / p + 1)
      ∨ (n % p + 1 < p ∧ (n + 1) % p = n % p + 1 ∧ (n + 1) / p = n / p) := by
  have hlt : n % p < p := Nat.mod_lt n hp
  have hn : n + 1 = p * (n / p) + (n % p + 1) := by
    have := Nat.div_add_mod n p
    omega
  by_cases h : n % p + 1 = p
  · left
    have hn2 : n + 1 = p * (n / p + 1) := by
      rw [Nat.mul_add, Nat.mul_one]
      omega
    refine ⟨h, ?_, ?_⟩
    · rw [hn2, Nat.mul_mod_right]
    · rw [hn2, Nat.mul_div_cancel_left _ hp]
  · right
    have hlt2 : n % p + 1 < p := by omega
    refine ⟨hlt2, ?_, ?_⟩
    · rw [hn, Nat.mul_add_mod, Nat.mod_eq_of_lt hlt2]
    · rw [hn, Nat.mul_add_div hp, Nat.div_eq_of_lt hlt2, Nat.add_zero]

/-- The record and the calls of a periodic task after `n` rounds. -/
lemma run_rounds_slot {body : Nat → TaskList → TaskList} (hb : Inert body)
    (i : Fin MAX_TASKS) (id task p : Nat) (hp1 : 1 ≤ p) (hp2 : p < 2 ^ 16) (s : Sched)
    (hrec : s.task_list i
      = { id := id, task := task, delay := p, period := p, status := RUNNABLE })
    (n : Nat) :
    (run body (rounds n) s).task_list i
        = { id := id, task := task, delay := p - n % p, period := p, status := RUNNABLE }
      ∧ (run body (rounds n) s).calls.filter (fun c => decide (c.slot = i))
        = s.calls.filter (fun c => decide (c.slot = i)) ++ List.replicate (n / p) ⟨i, task⟩ := by
  induction n with
  | zero =>
    have h0 : p - 0 % p = p := by rw [Nat.zero_mod, Nat.sub_zero]
    have h1 : 0 / p = 0 := Nat.zero_div p
    rw [h0, h1]
    exact ⟨hrec, by simp [rounds, run]⟩
  | succ n ih =>
    obtain ⟨ih1, ih2⟩ := ih
    have hrun : run body (rounds (n + 1)) s
        = run body [Op.tick, Op.dispatch] (run body (rounds n) s) :=
      run_append body (rounds n) [Op.tick, Op.dispatch] s
    have hlt : n % p < p := Nat.mod_lt n hp1
    have hdec : dec16 (p - n % p) = p - n % p - 1 :=
      dec16_pos (p - n % p) (by omega) (by omega)
    have htick : tickRecord ⟨id, task, p - n % p, p, RUNNABLE⟩
        = ⟨id, task, p - n % p - 1, p, RUNNABLE⟩ := by
      unfold tickRecord
      rw [if_pos rfl, hdec]
    rw [hrun, round_task_list hb, round_calls_filter hb, ih1, ih2]
    simp only [roundRecord, dueAfterTick, htick]
    rcases succ_div_mod n p hp1 with ⟨hm, hmod, hdiv⟩ | ⟨hm, hmod, hdiv⟩
    · have hz : p - n % p - 1 = 0 := by omega
      rw [hmod, hdiv, hz, Nat.sub_zero]
      refine ⟨rfl, ?_⟩
      simp [List.replicate_succ']
    · have hnz : p - n % p - 1 ≠ 0 := by omega
      have hd : p - n % p - 1 = p - (n % p + 1) := by omega
      rw [hmod, hdiv]
      refine ⟨?_, ?_⟩
      · unfold dispatchRecord
        rw [if_neg (fun h => hnz h.1), hd]
      · simp [hnz]

/-- C18: a task added with period `p >= 1` to a table with a free slot and not
deleted has, after `n` rounds of one tick followed by one dispatch pass, been
invoked exactly `n / p` times, its delay is then `p - n mod p`, and round
`n + 1` invokes it exactly when `p` divides `n + 1`. -/
theorem long_run_periodicity (body : Nat → TaskList → TaskList) (hb : Inert body)
    (tl0 : TaskList) (i : Fin MAX_TASKS) (hi : (tl0 i).status = STOPPED)
    (hlow : ∀ j, j < i → (tl0 j).status ≠ STOPPED) (id task p : Nat)
    (hp1 : 1 ≤ p) (hp2 : p < 2 ^ 16) (n : Nat) :
    (run body (rounds n) ⟨addTask id task p tl0, []⟩).calls.filter
        (fun c => decide (c.slot = i)) = List.replicate (n / p) ⟨i, task⟩
      ∧ ((run body (rounds n) ⟨addTask id task p tl0, []⟩).task_list i).delay = p - n % p
      ∧ (run body [Op.tick, Op.dispatch]
          ⟨(run body (rounds n) ⟨addTask id task p tl0, []⟩).task_list, []⟩).calls.filter
            (fun c => decide (c.slot = i))
          = (if (n + 1) % p = 0 then [⟨i, task⟩] else []) := by
  have hrec : (⟨addTask id task p tl0, []⟩ : Sched).task_list i
      = { id := id, task := task, delay := p, period := p, status := RUNNABLE } := by
    show addTask id task p tl0 i = _
    rw [addTask_eq_update id task p tl0 i hi hlow, Function.update_same]
  obtain ⟨h1, h2⟩ := run_rounds_slot hb i id task p hp1 hp2 ⟨addTask id task p tl0, []⟩ hrec n
  refine ⟨?_, ?_, ?_⟩
  · rw [h2]
    rfl
  · rw [h1]
  · rw [round_calls_filter hb]
    simp only [h1, dueAfterTick, List.filter_nil, List.nil_append]
    have hlt : n % p < p := Nat.mod_lt n hp1
    have hdec : dec16 (p - n % p) = p - n % p - 1 :=
      dec16_pos (p - n % p) (by omega) (by omega)
    have htick : tickRecord ⟨id, task, p - n % p, p, RUNNABLE⟩
        = ⟨id, task, p - n % p - 1, p, RUNNABLE⟩ := by
      unfold tickRecord
      rw [if_pos rfl, hdec]
    rw [htick]
    rcases succ_div_mod n p hp1 with ⟨hm, hmod, _⟩ | ⟨hm, hmod, _⟩
    · have hz : p - n % p - 1 = 0 := by omega
      simp [hmod, hz]
    · have hnz : p - n % p - 1 ≠ 0 := by omega
      simp [hmod, hnz]

/-- Witness of C18: period 2, five rounds: two invocations, delay 1, and the
sixth round invokes the task. -/
theorem long_run_periodicity_witness :
    Inert portTasks ∧ (initScheduler zeroList 0).status = STOPPED
      ∧ (∀ j : Fin MAX_TASKS, j < 0 → (initScheduler zeroList j).status ≠ STOPPED)
      ∧ 1 ≤ 2 ∧ 2 < 2 ^ 16
      ∧ ((run portTasks (rounds 5) ⟨addTask 5 0x100 2 (initScheduler zeroList), []⟩).calls.filter
            (fun c => decide (c.slot = 0)) = List.replicate (5 / 2) ⟨0, 0x100⟩
        ∧ ((run portTasks (rounds 5)
            ⟨addTask 5 0x100 2 (initScheduler zeroList), []⟩).task_list 0).delay = 2 - 5 % 2
        ∧ (run portTasks [Op.tick, Op.dispatch]
            ⟨(run portTasks (rounds 5)
              ⟨addTask 5 0x100 2 (initScheduler zeroList), []⟩).task_list, []⟩).calls.filter
              (fun c => decide (c.slot = 0))
            = (if (5 + 1) % 2 = 0 then [⟨0, 0x100⟩] else [])) :=
  ⟨fun _ _ => rfl, by decide, by decide, by decide, by decide,
    long_run_periodicity portTasks (fun _ _ => rfl) (initScheduler zeroList) 0 (by decide)
      (by decide) 5 0x100 2 (by decide) (by decide) 5⟩

/-! ## Statuses and periods along a run -/

lemma addTask_cases_low (id task period : Nat) (tl : TaskList) :
    addTask id task period tl = tl ∨ ∃ i, (tl i).status = STOPPED
      ∧ (∀ j, j < i → (tl j).status ≠ STOPPED)
      ∧ addTask id task period tl = Function.update tl i
        { id := id, task := task, delay := period, period := period, status := RUNNABLE } := by
  by_cases h : ∃ k, (tl k).status = STOPPED
  · obtain ⟨i, hi, hlow⟩ := exists_lowest (fun k => (tl k).status = STOPPED) h
    exact Or.inr ⟨i, hi, hlow, addTask_eq_update id task period tl i hi hlow⟩
  · exact Or.inl (addTask_eq_self id task period tl (fun j hj => h ⟨j, hj⟩))

/-- `deleteTask` leaves a record as it is or sets its status to `STOPPED`. -/
lemma deleteTask_apply (id : Nat) (tl : TaskList) (j : Fin MAX_TASKS) :
    deleteTask id tl j = tl j ∨ deleteTask id tl j = { tl j with status := STOPPED } := by
  rcases deleteTask_cases id tl with h | ⟨i, _, _, h⟩
  · exact Or.inl (by rw [h])
  · by_cases hj : j = i
    · subst hj
      exact Or.inr (by rw [h, Function.update_same])
    · exact Or.inl (by rw [h, Function.update_noteq hj])

lemma tickRecord_status (r : tcb_t) : (tickRecord r).status = r.status := by
  unfold tickRecord
  split <;> rfl

lemma tickRecord_period (r : tcb_t) : (tickRecord r).period = r.period := by
  unfold tickRecord
  split <;> rfl

lemma dispatchRecord_status (r : tcb_t) : (dispatchRecord r).status = r.status := by
  unfold dispatchRecord
  split
  · next h => exact h.2.symm
  · rfl

lemma dispatchRecord_period (r : tcb_t) : (dispatchRecord r).period = r.period := by
  unfold dispatchRecord
  split <;> rfl

lemma deleteTask_period (id : Nat) (tl : TaskList) (j : Fin MAX_TASKS) :
    (deleteTask id tl j).period = (tl j).period := by
  rcases deleteTask_apply id tl j with h | h <;> rw [h]

lemma deleteTask_task (id : Nat) (tl : TaskList) (j : Fin MAX_TASKS) :
    (deleteTask id tl j).task = (tl j).task := by
  rcases deleteTask_apply id tl j with h | h <;> rw [h]

/-- Every operation leaves each status `RUNNABLE` or `STOPPED`. -/
lemma step_status {body : Nat → TaskList → TaskList} (hb : Inert body) (s : Sched) (op : Op)
    (h : ∀ j, (s.task_list j).status = RUNNABLE ∨ (s.task_list j).status = STOPPED)
    (j : Fin MAX_TASKS) :
    ((step body s op).task_list j).status = RUNNABLE
      ∨ ((step body s op).task_list j).status = STOPPED := by
  cases op with
  | add id task period =>
    show (addTask id task period s.task_list j).status = RUNNABLE
      ∨ (addTask id task period s.task_list j).status = STOPPED
    rcases addTask_cases id task period s.task_list with h1 | ⟨i, _, h1⟩
    · rw [h1]
      exact h j
    · rw [h1]
      by_cases hj : j = i
      · subst hj
        rw [Function.update_same]
        exact Or.inl rfl
      · rw [Function.update_noteq hj]
        exact h j
  | del id =>
    show (deleteTask id s.task_list j).status = RUNNABLE
      ∨ (deleteTask id s.task_list j).status = STOPPED
    rcases deleteTask_apply id s.task_list j with h1 | h1
    · rw [h1]
      exact h j
    · rw [h1]
      exact Or.inr rfl
  | tick =>
    show (ISR_TIMER1_OVF s.task_list j).status = RUNNABLE
      ∨ (ISR_TIMER1_OVF s.task_list j).status = STOPPED
    rw [ISR_apply, tickRecord_status]
    exact h j
  | dispatch =>
    show ((dispatchTasks body s).task_list j).status = RUNNABLE
      ∨ ((dispatchTasks body s).task_list j).status = STOPPED
    rw [dispatchTasks_task_list hb, dispatchRecord_status]
    exact h j

lemma run_status {body : Nat → TaskList → TaskList} (hb : Inert body) (ops : List Op)
    (s : Sched)
    (h : ∀ j, (s.task_list j).status = RUNNABLE ∨ (s.task_list j).status = STOPPED) :
    ∀ j, ((run body ops s).task_list j).status = RUNNABLE
      ∨ ((run body ops s).task_list j).status = STOPPED := by
  induction ops generalizing s with
  | nil => exact h
  | cons op ops ih =>
    rw [run_cons]
    exact ih _ (step_status hb s op h)

/-- C14: in every table reached from `initScheduler` by `addTask`,
`deleteTask`, ticks and completed dispatch passes, every slot's status is
`RUNNABLE` or `STOPPED`; consequently `getTaskStatus id` returns `ERROR` if and
only if no slot carries that id. -/
theorem reachable_statuses (body : Nat → TaskList → TaskList) (hb : Inert body)
    (tl0 : TaskList) (ops : List Op) :
    (∀ j, ((run body ops ⟨initScheduler tl0, []⟩).task_list j).status = RUNNABLE
        ∨ ((run body ops ⟨initScheduler tl0, []⟩).task_list j).status = STOPPED)
      ∧ ∀ id, getTaskStatus id (run body ops ⟨initScheduler tl0, []⟩).task_list = ERROR
          ↔ ∀ j, ((run body ops ⟨initScheduler tl0, []⟩).task_list j).id ≠ id := by
  have hst := run_status hb ops ⟨initScheduler tl0, []⟩ (fun j => by
    show (initScheduler tl0 j).status = RUNNABLE ∨ (initScheduler tl0 j).status = STOPPED
    rw [initScheduler_apply]
    exact Or.inr rfl)
  refine ⟨hst, fun id => ⟨fun herr => ?_, fun hno => getTaskStatus_eq_error id _ hno⟩⟩
  by_contra hex
  have hex2 : ∃ k, ((run body ops ⟨initScheduler tl0, []⟩).task_list k).id = id := by
    by_contra hnone
    exact hex (fun j hj => hnone ⟨j, hj⟩)
  obtain ⟨i, hi, hlow⟩ := exists_lowest _ hex2
  rw [getTaskStatus_eq_status id _ i hi hlow] at herr
  rcases hst i with h1 | h1
  · rw [h1] at herr
    exact absurd herr (by decide)
  · rw [h1] at herr
    exact absurd herr (by decide)

/-- Witness of C14 on a run of all four operations. -/
theorem reachable_statuses_witness :
    Inert portTasks
      ∧ (∀ j, ((run portTasks [Op.add 1 0x100 0, Op.add 2 0x104 2, Op.tick, Op.dispatch,
            Op.del 1, Op.dispatch] ⟨initScheduler zeroList, []⟩).task_list j).status = RUNNABLE
          ∨ ((run portTasks [Op.add 1 0x100 0, Op.add 2 0x104 2, Op.tick, Op.dispatch,
            Op.del 1, Op.dispatch] ⟨initScheduler zeroList, []⟩).task_list j).status = STOPPED) :=
  ⟨fun _ _ => rfl, (reachable_statuses portTasks (fun _ _ => rfl) zeroList _).1⟩

/-- `addTask` leaves the period of every slot but the one it claims. -/
lemma addTask_period_of_not_claimed (id task period : Nat) (tl : TaskList) (j : Fin MAX_TASKS)
    (h : isClaimed tl j = false) : (addTask id task period tl j).period = (tl j).period := by
  rcases addTask_cases_low id task period tl with h1 | ⟨i, hi, hlow, h1⟩
  · rw [h1]
  · rw [h1]
    by_cases hj : j = i
    · subst hj
      have : isClaimed tl j = true := decide_eq_true ⟨hi, hlow⟩
      rw [h] at this
      exact absurd this (by decide)
    · rw [Function.update_noteq hj]

/-- The period of a slot that no `addTask` of the run claims. -/
lemma run_period_kept {body : Nat → TaskList → TaskList} (hb : Inert body) (i : Fin MAX_TASKS)
    (ops : List Op) (s : Sched) (h : slotKept body i ops s = true) :
    ((run body ops s).task_list i).period = (s.task_list i).period := by
  induction ops generalizing s with
  | nil => rfl
  | cons op ops ih =>
    simp only [slotKept, Bool.and_eq_true, Bool.not_eq_true', Bool.and_eq_false_iff] at h
    rw [run_cons, ih _ h.2]
    cases op with
    | add id task period =>
      have hc : isClaimed s.task_list i = false := by
        rcases h.1 with h1 | h1
        · exact absurd h1 (by simp [isAdd])
        · exact h1
      exact addTask_period_of_not_claimed id task period s.task_list i hc
    | del id => exact deleteTask_period id s.task_list i
    | tick =>
      show (ISR_TIMER1_OVF s.task_list i).period = _
      rw [ISR_apply, tickRecord_period]
    | dispatch =>
      show ((dispatchTasks body s).task_list i).period = _
      rw [dispatchTasks_task_list hb, dispatchRecord_period]

/-- C15: `deleteTask`, a tick and a dispatch pass leave the period of every slot
unchanged, and `addTask` changes the period of no slot but the one it claims
(the lowest `STOPPED` slot); hence from the `addTask` that created a task until a
later `addTask` claims its slot, the period is the value passed at creation. -/
theorem period_immutable (body : Nat → TaskList → TaskList) (hb : Inert body) :
    (∀ (tl : TaskList) (id : Nat) (j : Fin MAX_TASKS),
        (deleteTask id tl j).period = (tl j).period)
      ∧ (∀ (tl : TaskList) (j : Fin MAX_TASKS), (ISR_TIMER1_OVF tl j).period = (tl j).period)
      ∧ (∀ (tl : TaskList) (calls : List Call) (j : Fin MAX_TASKS),
          ((dispatchTasks body ⟨tl, calls⟩).task_list j).period = (tl j).period)
      ∧ (∀ (tl : TaskList) (id task period : Nat) (j : Fin MAX_TASKS),
          (addTask id task period tl j).period ≠ (tl j).period →
            (tl j).status = STOPPED ∧ (∀ k, k < j → (tl k).status ≠ STOPPED)
              ∧ (addTask id task period tl j).period = period)
      ∧ (∀ (tl0 : TaskList) (i : Fin MAX_TASKS) (id task period : Nat) (ops : List Op),
          (tl0 i).status = STOPPED → (∀ k, k < i → (tl0 k).status ≠ STOPPED) →
          slotKept body i ops ⟨addTask id task period tl0, []⟩ = true →
            ((run body ops ⟨addTask id task period tl0, []⟩).task_list i).period = period) := by
  refine ⟨fun tl id j => deleteTask_period id tl j, ?_, ?_, ?_, ?_⟩
  · intro tl j
    rw [ISR_apply, tickRecord_period]
  · intro tl calls j
    rw [dispatchTasks_task_list hb, dispatchRecord_period]
  · intro tl id task period j hne
    rcases addTask_cases_low id task period tl with h1 | ⟨i, hi, hlow, h1⟩
    · rw [h1] at hne
      exact absurd rfl hne
    · by_cases hj : j = i
      · subst hj
        refine ⟨hi, hlow, ?_⟩
        rw [h1, Function.update_same]
      · rw [h1, Function.update_noteq hj] at hne
        exact absurd rfl hne
  · intro tl0 i id task period ops hi hlow hkept
    rw [run_period_kept hb i ops _ hkept]
    show (addTask id task period tl0 i).period = period
    rw [addTask_eq_update id task period tl0 i hi hlow, Function.update_same]

/-- Witness of C15: the task created in slot 0 with period 7 keeps it through a
tick, a pass, another add, a delete of the other task and a further add. -/
theorem period_immutable_witness :
    Inert portTasks
      ∧ ((addTask 9 0x200 7 holeList 1).period ≠ (holeList 1).period
        ∧ (holeList 1).status = STOPPED ∧ (∀ k : Fin MAX_TASKS, k < 1 → (holeList k).status ≠ STOPPED)
        ∧ (addTask 9 0x200 7 holeList 1).period = 7)
      ∧ ((initScheduler zeroList 0).status = STOPPED
        ∧ (∀ k : Fin MAX_TASKS, k < 0 → (initScheduler zeroList k).status ≠ STOPPED)
        ∧ slotKept portTasks 0 [Op.tick, Op.dispatch, Op.add 2 0x104 3, Op.del 2, Op.add 3 0x108 4]
            ⟨addTask 1 0x100 7 (initScheduler zeroList), []⟩ = true
        ∧ ((run portTasks [Op.tick, Op.dispatch, Op.add 2 0x104 3, Op.del 2, Op.add 3 0x108 4]
            ⟨addTask 1 0x100 7 (initScheduler zeroList), []⟩).task_list 0).period = 7) :=
  ⟨fun _ _ => rfl,
    ⟨by decide,
      (period_immutable portTasks (fun _ _ => rfl)).2.2.2.1 holeList 9 0x200 7 1 (by decide)⟩,
    ⟨by decide, by decide, by decide,
      (period_immutable portTasks (fun _ _ => rfl)).2.2.2.2 (initScheduler zeroList) 0 1 0x100 7
        [Op.tick, Op.dispatch, Op.add 2 0x104 3, Op.del 2, Op.add 3 0x108 4]
        (by decide) (by decide) (by decide)⟩⟩

/-! ## Insertion order and slot order -/

/-- Of two due slots the lower one is called first. -/
lemma dispatch_slot_order {body : Nat → TaskList → TaskList} (hb : Inert body) (tl : TaskList)
    (k1 k2 : Fin MAX_TASKS) (hk : k1 < k2) (h1 : isDue tl k1 = true) (h2 : isDue tl k2 = true) :
    List.Sublist [callOf tl k1, callOf tl k2] (dispatchTasks body ⟨tl, []⟩).calls := by
  rw [dispatchTasks_calls hb, List.nil_append]
  obtain ⟨l1, l2, hs, hl1, _⟩ := slots_split k1
  have hmem : k2 ∈ l2 := by
    have hm := mem_slots k2
    rw [hs, List.mem_append, List.mem_cons] at hm
    rcases hm with hm | hm | hm
    · exact absurd (hl1 k2 hm) (not_lt.mpr (le_of_lt hk))
    · exact absurd hk (by rw [hm]; exact lt_irrefl _)
    · exact hm
  have hsub : List.Sublist [k1, k2] slots := by
    rw [hs]
    exact List.Sublist.trans
      (List.Sublist.cons₂ k1 (List.singleton_sublist.mpr hmem))
      (List.sublist_append_right l1 (k1 :: l2))
  have hfil := List.Sublist.filter (isDue tl) hsub
  have hboth : [k1, k2].filter (isDue tl) = [k1, k2] := by
    simp [List.filter, h1, h2]
  rw [hboth] at hfil
  exact List.Sublist.map (callOf tl) hfil

/-- C13, as stated, fails once a slot is reused: after adding tasks 1 and 2,
deleting task 1 and adding task 3, task 3 sits in slot 0 below task 2; both are
active and due, and the pass calls task 3 (added later) before task 2. -/
theorem later_task_called_first :
    (run portTasks [Op.add 1 0x100 0, Op.add 2 0x104 0, Op.del 1, Op.add 3 0x108 0]
        ⟨initScheduler zeroList, []⟩).task_list 0
        = { id := 3, task := 0x108, delay := 0, period := 0, status := RUNNABLE }
      ∧ (run portTasks [Op.add 1 0x100 0, Op.add 2 0x104 0, Op.del 1, Op.add 3 0x108 0]
        ⟨initScheduler zeroList, []⟩).task_list 1
        = { id := 2, task := 0x104, delay := 0, period := 0, status := RUNNABLE }
      ∧ (dispatchTasks portTasks
          (run portTasks [Op.add 1 0x100 0, Op.add 2 0x104 0, Op.del 1, Op.add 3 0x108 0]
            ⟨initScheduler zeroList, []⟩)).calls = [⟨0, 0x108⟩, ⟨1, 0x104⟩] := by
  decide

lemma runTagged_snoc (body : Nat → TaskList → TaskList) (ops : List Op) (op : Op)
    (g : Tagged) : runTagged body (ops ++ [op]) g = stepTagged body (runTagged body ops g) op := by
  simp [runTagged, List.foldl_append]

lemma runTagged_sched (body : Nat → TaskList → TaskList) (ops : List Op) (g : Tagged) :
    (runTagged body ops g).sched = run body ops g.sched := by
  induction ops generalizing g with
  | nil => rfl
  | cons op ops ih =>
    simp only [runTagged, List.foldl_cons] at ih ⊢
    rw [ih, run_cons]
    rfl

lemma runTagged_clock (body : Nat → TaskList → TaskList) (ops : List Op) (g : Tagged) :
    (runTagged body ops g).clock = g.clock + ops.length := by
  induction ops generalizing g with
  | nil => rfl
  | cons op ops ih =>
    simp only [runTagged, List.foldl_cons, List.length_cons] at ih ⊢
    rw [ih]
    simp only [stepTagged]
    omega

lemma orderKept_snoc (body : Nat → TaskList → TaskList) (ops : List Op) (op : Op) (s : Sched) :
    orderKept body (ops ++ [op]) s
      = (orderKept body ops s && orderCheck op (run body ops s).task_list) := by
  induction ops generalizing s with
  | nil => simp [orderKept, run]
  | cons o l ih =>
    show (orderCheck o s.task_list && orderKept body (l ++ [op]) (step body s o)) = _
    rw [ih, run_cons]
    simp only [orderKept, Bool.and_assoc]

/-- The slot an `addTask` claims, if any, is the only one `isClaimed` marks. -/
lemma addTask_claim (id task period : Nat) (tl : TaskList) :
    ((∀ i, isClaimed tl i = false) ∧ addTask id task period tl = tl)
      ∨ ∃ k, isClaimed tl k = true ∧ (∀ i, i ≠ k → isClaimed tl i = false)
        ∧ addTask id task period tl = Function.update tl k
          { id := id, task := task, delay := period, period := period, status := RUNNABLE } := by
  by_cases h : ∃ k, (tl k).status = STOPPED
  · obtain ⟨k, hk, hlow⟩ := exists_lowest (fun k => (tl k).status = STOPPED) h
    refine Or.inr ⟨k, decide_eq_true ⟨hk, hlow⟩, fun i hik => ?_,
      addTask_eq_update id task period tl k hk hlow⟩
    apply decide_eq_false
    rintro ⟨hi, hilow⟩
    rcases lt_trichotomy i k with hlt | heq | hgt
    · exact hlow i hlt hi
    · exact hik heq
    · exact hilow k hgt hk
  · refine Or.inl ⟨fun i => decide_eq_false (fun hc => h ⟨i, hc.1⟩), ?_⟩
    exact addTask_eq_self id task period tl (fun j hj => h ⟨j, hj⟩)

/-- What one operation does to the records and the stamps: either no slot is
claimed, every record keeps its id, callback and period, no removed slot
becomes active and the stamps stay; or the operation is an `addTask` that
writes its arguments into the slot it claims and stamps that slot. -/
lemma stepTagged_cases {body : Nat → TaskList → TaskList} (hb : Inert body) (g : Tagged)
    (op : Op) :
    (∀ i, ((stepTagged body g op).sched.task_list i).id = (g.sched.task_list i).id
        ∧ ((stepTagged body g op).sched.task_list i).task = (g.sched.task_list i).task
        ∧ ((stepTagged body g op).sched.task_list i).period = (g.sched.task_list i).period
        ∧ (((stepTagged body g op).sched.task_list i).status ≠ STOPPED →
            (g.sched.task_list i).status ≠ STOPPED)
        ∧ (stepTagged body g op).stamp i = g.stamp i)
      ∨ ∃ k id task period, op = Op.add id task period ∧ isClaimed g.sched.task_list k = true
        ∧ (stepTagged body g op).sched.task_list = Function.update g.sched.task_list k
            { id := id, task := task, delay := period, period := period, status := RUNNABLE }
        ∧ ∀ i, (stepTagged body g op).stamp i = if i = k then g.clock else g.stamp i := by
  cases op with
  | add id task period =>
    have htl : (stepTagged body g (Op.add id task period)).sched.task_list
        = addTask id task period g.sched.task_list := rfl
    have hst : ∀ i, (stepTagged body g (Op.add id task period)).stamp i
        = if isClaimed g.sched.task_list i = true then g.clock else g.stamp i := by
      intro i
      simp [stepTagged, isAdd]
    rcases addTask_claim id task period g.sched.task_list with ⟨hnc, hself⟩ | ⟨k, hk, hne, hupd⟩
    · left
      intro i
      rw [htl, hself, hst, hnc i]
      exact ⟨rfl, rfl, rfl, fun h => h, by simp⟩
    · right
      refine ⟨k, id, task, period, rfl, hk, by rw [htl, hupd], fun i => ?_⟩
      rw [hst]
      by_cases hik : i = k
      · rw [hik, hk, if_pos rfl, if_pos rfl]
      · rw [hne i hik, if_neg hik]
        simp
  | del id =>
    left
    intro i
    have htl : (stepTagged body g (Op.del id)).sched.task_list i
        = deleteTask id g.sched.task_list i := rfl
    have hst : (stepTagged body g (Op.del id)).stamp i = g.stamp i := by
      simp [stepTagged, isAdd]
    rw [htl, hst]
    refine ⟨deleteTask_id _ _ _, deleteTask_task _ _ _, deleteTask_period _ _ _, ?_, rfl⟩
    rcases deleteTask_apply id g.sched.task_list i with h | h
    · rw [h]
      exact fun hc => hc
    · rw [h]
      exact fun hc => absurd rfl hc
  | tick =>
    left
    intro i
    have htl : (stepTagged body g Op.tick).sched.task_list i
        = ISR_TIMER1_OVF g.sched.task_list i := rfl
    have hst : (stepTagged body g Op.tick).stamp i = g.stamp i := by
      simp [stepTagged, isAdd]
    rw [htl, hst, ISR_apply, tickRecord_status]
    exact ⟨tickRecord_id _, tickRecord_task _, tickRecord_period _, id, rfl⟩
  | dispatch =>
    left
    intro i
    have htl : (stepTagged body g Op.dispatch).sched.task_list i
        = (dispatchTasks body g.sched).task_list i := rfl
    have hst : (stepTagged body g Op.dispatch).stamp i = g.stamp i := by
      simp [stepTagged, isAdd]
    rw [htl, hst, dispatchTasks_task_list hb, dispatchRecord_status]
    exact ⟨dispatchRecord_id _, dispatchRecord_task _, dispatchRecord_period _, id, rfl⟩

/-- The stamp of an active slot is the position of the `addTask` that passed
the id, callback and period the slot holds. -/
lemma stamp_grounded {body : Nat → TaskList → TaskList} (hb : Inert body) (tl0 : TaskList)
    (ops : List Op) :
    ∀ i, ((runTagged body ops (startTagged tl0)).sched.task_list i).status ≠ STOPPED →
      (runTagged body ops (startTagged tl0)).stamp i < ops.length
      ∧ ops[(runTagged body ops (startTagged tl0)).stamp i]?
        = some (Op.add ((runTagged body ops (startTagged tl0)).sched.task_list i).id
            ((runTagged body ops (startTagged tl0)).sched.task_list i).task
            ((runTagged body ops (startTagged tl0)).sched.task_list i).period) := by
  induction ops using List.reverseRecOn with
  | nil =>
    intro i hact
    have hst : (initScheduler tl0 i).status ≠ STOPPED := hact
    rw [initScheduler_apply] at hst
    exact absurd rfl hst
  | append_singleton ops op ih =>
    intro i
    have hclock : (runTagged body ops (startTagged tl0)).clock = ops.length := by
      rw [runTagged_clock]
      simp [startTagged]
    rw [runTagged_snoc]
    generalize runTagged body ops (startTagged tl0) = g at ih hclock
    have hlen : (ops ++ [op]).length = ops.length + 1 := by simp
    rcases stepTagged_cases hb g op with hsame | ⟨k, id, task, period, hop, _, hupd, hstamp⟩
    · obtain ⟨h1, h2, h3, h4, h5⟩ := hsame i
      intro hact
      obtain ⟨ihlt, ihget⟩ := ih i (h4 hact)
      rw [h1, h2, h3, h5, hlen, List.getElem?_append_left ihlt]
      exact ⟨by omega, ihget⟩
    · intro hact
      rw [hstamp i, hlen]
      by_cases hik : i = k
      · rw [if_pos hik, hclock, List.getElem?_concat_length, hupd, hik, Function.update_same, hop]
        exact ⟨by omega, rfl⟩
      · rw [hupd, Function.update_noteq hik] at hact ⊢
        obtain ⟨ihlt, ihget⟩ := ih i hact
        rw [if_neg hik, List.getElem?_append_left ihlt]
        exact ⟨by omega, ihget⟩

/-- While no `addTask` claims a slot below an active task, the active tasks sit
in the table in the order of their adds. -/
lemma stamp_sorted {body : Nat → TaskList → TaskList} (hb : Inert body) (tl0 : TaskList)
    (ops : List Op) :
    orderKept body ops ⟨initScheduler tl0, []⟩ = true →
    ∀ i j, i < j →
      ((runTagged body ops (startTagged tl0)).sched.task_list i).status ≠ STOPPED →
      ((runTagged body ops (startTagged tl0)).sched.task_list j).status ≠ STOPPED →
      (runTagged body ops (startTagged tl0)).stamp i
        < (runTagged body ops (startTagged tl0)).stamp j := by
  induction ops using List.reverseRecOn with
  | nil =>
    intro _ i j _ hact _
    have hst : (initScheduler tl0 i).status ≠ STOPPED := hact
    rw [initScheduler_apply] at hst
    exact absurd rfl hst
  | append_singleton ops op ih =>
    intro hkept i j hij
    rw [orderKept_snoc, Bool.and_eq_true] at hkept
    have ih2 := ih hkept.1
    have hcheck := hkept.2
    have hground := stamp_grounded hb tl0 ops
    have hclock : (runTagged body ops (startTagged tl0)).clock = ops.length := by
      rw [runTagged_clock]
      simp [startTagged]
    have hsched : (run body ops ⟨initScheduler tl0, []⟩).task_list
        = (runTagged body ops (startTagged tl0)).sched.task_list := by
      rw [runTagged_sched]
      rfl
    rw [hsched] at hcheck
    rw [runTagged_snoc]
    generalize runTagged body ops (startTagged tl0) = g at ih2 hcheck hground hclock
    rcases stepTagged_cases hb g op with hsame | ⟨k, id, task, period, hop, hk, hupd, hstamp⟩
    · intro hi hj
      rw [(hsame i).2.2.2.2, (hsame j).2.2.2.2]
      exact ih2 i j hij ((hsame i).2.2.2.1 hi) ((hsame j).2.2.2.1 hj)
    · intro hi hj
      rw [hstamp i, hstamp j]
      have hall : ∀ a b, isClaimed g.sched.task_list a = true → a < b →
          (g.sched.task_list b).status = STOPPED := by
        rw [hop] at hcheck
        simpa [orderCheck, isAdd] using hcheck
      by_cases hik : i = k
      · have hjk : j ≠ k := fun h => by
          rw [hik, h] at hij
          exact lt_irrefl _ hij
        rw [hupd, Function.update_noteq hjk] at hj
        rw [hik] at hij
        exact absurd (hall k j hk hij) hj
      · rw [hupd, Function.update_noteq hik] at hi
        by_cases hjk : j = k
        · rw [if_neg hik, if_pos hjk, hclock]
          exact (hground i hi).1
        · rw [hupd, Function.update_noteq hjk] at hj
          rw [if_neg hik, if_neg hjk]
          exact ih2 i j hij hi hj

/-- C13, amended: dispatch order is slot order, and it is insertion order as
long as no `addTask` claims a slot below a slot that holds an active task.  In
every table reached from `initScheduler` by such a sequence of `addTask`,
`deleteTask`, tick and dispatch operations, two due tasks are the ones passed by
the operations number `S i` and `S j`, and when the first was added earlier
(`S i < S j`) the dispatch pass calls it before the second. -/
theorem insertion_order_dispatch (body : Nat → TaskList → TaskList) (hb : Inert body)
    (tl0 : TaskList) (ops : List Op)
    (hkept : orderKept body ops ⟨initScheduler tl0, []⟩ = true)
    (T : TaskList) (hT : T = (run body ops ⟨initScheduler tl0, []⟩).task_list)
    (S : Fin MAX_TASKS → Nat) (hS : S = (runTagged body ops (startTagged tl0)).stamp)
    (i j : Fin MAX_TASKS)
    (hdi : (T i).delay = 0 ∧ (T i).status = RUNNABLE)
    (hdj : (T j).delay = 0 ∧ (T j).status = RUNNABLE)
    (hlt : S i < S j) :
    ops[S i]? = some (Op.add (T i).id (T i).task (T i).period)
      ∧ ops[S j]? = some (Op.add (T j).id (T j).task (T j).period)
      ∧ i < j
      ∧ List.Sublist [⟨i, (T i).task⟩, ⟨j, (T j).task⟩] (dispatchTasks body ⟨T, []⟩).calls := by
  have hsched : T = (runTagged body ops (startTagged tl0)).sched.task_list := by
    rw [hT, runTagged_sched]
    rfl
  have hrun : RUNNABLE ≠ STOPPED := by decide
  have hai : (T i).status ≠ STOPPED := by
    rw [hdi.2]
    exact hrun
  have haj : (T j).status ≠ STOPPED := by
    rw [hdj.2]
    exact hrun
  have hij : i < j := by
    rcases lt_trichotomy i j with h | h | h
    · exact h
    · rw [h] at hlt
      exact absurd hlt (lt_irrefl _)
    · have := stamp_sorted hb tl0 ops hkept j i h (by rw [← hsched]; exact haj)
        (by rw [← hsched]; exact hai)
      rw [← hS] at this
      exact absurd hlt (not_lt.mpr (le_of_lt this))
  have hgi := (stamp_grounded hb tl0 ops i (by rw [← hsched]; exact hai)).2
  have hgj := (stamp_grounded hb tl0 ops j (by rw [← hsched]; exact haj)).2
  rw [← hsched, ← hS] at hgi hgj
  exact ⟨hgi, hgj, hij,
    dispatch_slot_order hb T i j hij (decide_eq_true hdi) (decide_eq_true hdj)⟩

/-- Witness of amended C13: tasks 1 and 2 are added, task 2 is deleted and
task 3 takes its slot, above task 1: task 1 (operation 0) is called before
task 3 (operation 3). -/
theorem insertion_order_dispatch_witness :
    Inert portTasks
      ∧ orderKept portTasks [Op.add 1 0x100 0, Op.add 2 0x104 0, Op.del 2, Op.add 3 0x108 0]
          ⟨initScheduler zeroList, []⟩ = true
      ∧ (runTagged portTasks [Op.add 1 0x100 0, Op.add 2 0x104 0, Op.del 2, Op.add 3 0x108 0]
          (startTagged zeroList)).stamp 0
        < (runTagged portTasks [Op.add 1 0x100 0, Op.add 2 0x104 0, Op.del 2, Op.add 3 0x108 0]
          (startTagged zeroList)).stamp 1
      ∧ (0 : Fin MAX_TASKS) < 1
      ∧ List.Sublist [⟨0, 0x100⟩, ⟨1, 0x108⟩]
          (dispatchTasks portTasks
            ⟨(run portTasks [Op.add 1 0x100 0, Op.add 2 0x104 0, Op.del 2, Op.add 3 0x108 0]
              ⟨initScheduler zeroList, []⟩).task_list, []⟩).calls :=
  ⟨fun _ _ => rfl, by decide, by decide,
    (insertion_order_dispatch portTasks (fun _ _ => rfl) zeroList
      [Op.add 1 0x100 0, Op.add 2 0x104 0, Op.del 2, Op.add 3 0x108 0] (by decide) _ rfl _ rfl
      0 1 (by decide) (by decide) (by decide)).2.2.1,
    (insertion_order_dispatch portTasks (fun _ _ => rfl) zeroList
      [Op.add 1 0x100 0, Op.add 2 0x104 0, Op.del 2, Op.add 3 0x108 0] (by decide) _ rfl _ rfl
      0 1 (by decide) (by decide) (by decide)).2.2.2⟩

/-! ## The unique-id discipline -/

/-- `UniqueIds` reads only the id and the status of each record. -/
lemma uniqueIds_congr (tl tl2 : TaskList)
    (h : ∀ j, (tl2 j).id = (tl j).id ∧ (tl2 j).status = (tl j).status)
    (hu : UniqueIds tl) : UniqueIds tl2 := by
  refine ⟨fun i j hi hj hid => ?_, fun i j hi hj hid => ?_⟩
  · rw [(h i).2] at hi
    rw [(h j).2] at hj
    rw [(h i).1, (h j).1] at hid
    exact hu.1 i j hi hj hid
  · rw [(h i).2] at hi
    rw [(h j).2] at hj
    rw [(h i).1, (h j).1] at hid
    exact hu.2 i j hi hj hid

lemma uniqueIds_addTask (id task period : Nat) (tl : TaskList) (hu : UniqueIds tl)
    (hnew : ∀ j, (tl j).status ≠ STOPPED → (tl j).id ≠ id) :
    UniqueIds (addTask id task period tl) := by
  rcases addTask_cases_low id task period tl with h1 | ⟨k, hk, hlow, h1⟩
  · rw [h1]
    exact hu
  · rw [h1]
    have hrun : RUNNABLE ≠ STOPPED := by decide
    refine ⟨fun i j hi hj hid => ?_, fun i j hi hj hid => ?_⟩
    · by_cases hik : i = k
      · by_cases hjk : j = k
        · rw [hik, hjk]
        · subst hik
          rw [Function.update_noteq hjk] at hj hid
          rw [Function.update_same] at hid
          exact absurd hid.symm (hnew j hj)
      · by_cases hjk : j = k
        · subst hjk
          rw [Function.update_noteq hik] at hi hid
          rw [Function.update_same] at hid
          exact absurd hid (hnew i hi)
        · rw [Function.update_noteq hik] at hi hid
          rw [Function.update_noteq hjk] at hj hid
          exact hu.1 i j hi hj hid
    · have hik : i ≠ k := by
        intro hik
        subst hik
        rw [Function.update_same] at hi
        exact hrun hi
      rw [Function.update_noteq hik] at hi hid
      by_cases hjk : j = k
      · subst hjk
        exact fun hlt => hlow i hlt hi
      · rw [Function.update_noteq hjk] at hj hid
        exact hu.2 i j hi hj hid

lemma uniqueIds_deleteTask (id : Nat) (tl : TaskList) (hu : UniqueIds tl) :
    UniqueIds (deleteTask id tl) := by
  rcases deleteTask_cases id tl with h1 | ⟨k, _, _, h1⟩
  · rw [h1]
    exact hu
  · rw [h1]
    have hk : ∀ j, (Function.update tl k { tl k with status := STOPPED } j).status ≠ STOPPED →
        j ≠ k ∧ (tl j).status ≠ STOPPED := by
      intro j hj
      have hjk : j ≠ k := by
        intro hjk
        subst hjk
        rw [Function.update_same] at hj
        exact hj rfl
      rw [Function.update_noteq hjk] at hj
      exact ⟨hjk, hj⟩
    have hid : ∀ j, (Function.update tl k { tl k with status := STOPPED } j).id = (tl j).id := by
      intro j
      by_cases hjk : j = k
      · subst hjk
        rw [Function.update_same]
      · rw [Function.update_noteq hjk]
    refine ⟨fun i j hi hj h => ?_, fun i j hi hj h => ?_⟩
    · rw [hid i, hid j] at h
      exact hu.1 i j (hk i hi).2 (hk j hj).2 h
    · rw [hid i, hid j] at h
      obtain ⟨hjk, hj2⟩ := hk j hj
      by_cases hik : i = k
      · by_cases hst : (tl i).status = STOPPED
        · exact hu.2 i j hst hj2 h
        · have hij := hu.1 i j hst hj2 h
          rw [hik] at hij
          exact absurd hij.symm hjk
      · rw [Function.update_noteq hik] at hi
        exact hu.2 i j hi hj2 h

lemma run_uniqueIds {body : Nat → TaskList → TaskList} (hb : Inert body) (ops : List Op)
    (s : Sched) (hu : UniqueIds s.task_list) (hd : disciplined body ops s = true) :
    UniqueIds (run body ops s).task_list := by
  induction ops generalizing s with
  | nil => exact hu
  | cons op ops ih =>
    simp only [disciplined, Bool.and_eq_true] at hd
    rw [run_cons]
    apply ih _ _ hd.2
    cases op with
    | add id task period =>
      have hnew : ∀ j, (s.task_list j).status ≠ STOPPED → (s.task_list j).id ≠ id := by
        simpa using hd.1
      exact uniqueIds_addTask id task period s.task_list hu hnew
    | del id => exact uniqueIds_deleteTask id s.task_list hu
    | tick =>
      apply uniqueIds_congr s.task_list _ _ hu
      intro j
      show (ISR_TIMER1_OVF s.task_list j).id = _ ∧ (ISR_TIMER1_OVF s.task_list j).status = _
      rw [ISR_apply]
      exact ⟨tickRecord_id _, tickRecord_status _⟩
    | dispatch =>
      apply uniqueIds_congr s.task_list _ _ hu
      intro j
      show ((dispatchTasks body s).task_list j).id = _
        ∧ ((dispatchTasks body s).task_list j).status = _
      rw [dispatchTasks_task_list hb]
      exact ⟨dispatchRecord_id _, dispatchRecord_status _⟩

/-- C17: under the unique-id discipline every table reached from
`initScheduler` has no two non-`STOPPED` records with the same id and no
`STOPPED` slot below an active record with the same id; hence for the id of
every active record `getTaskStatus` returns that record's status, which is
`RUNNABLE`, and `deleteTask` stops exactly that record. -/
theorem unique_id_discipline (body : Nat → TaskList → TaskList) (hb : Inert body)
    (tl0 : TaskList) (ops : List Op)
    (hd : disciplined body ops ⟨initScheduler tl0, []⟩ = true)
    (T : TaskList) (hT : T = (run body ops ⟨initScheduler tl0, []⟩).task_list) :
    (∀ i j, (T i).status ≠ STOPPED → (T j).status ≠ STOPPED → (T i).id = (T j).id → i = j)
      ∧ (∀ i j, (T i).status = STOPPED → (T j).status ≠ STOPPED → (T i).id = (T j).id →
          ¬ i < j)
      ∧ ∀ j, (T j).status ≠ STOPPED →
          getTaskStatus (T j).id T = (T j).status
          ∧ (T j).status = RUNNABLE
          ∧ deleteTask (T j).id T = Function.update T j { T j with status := STOPPED } := by
  have hinit : UniqueIds (⟨initScheduler tl0, []⟩ : Sched).task_list := by
    have hst : ∀ j, (initScheduler tl0 j).status = STOPPED := fun j => by
      rw [initScheduler_apply]
    exact ⟨fun i _ hi _ _ => absurd (hst i) hi, fun _ j _ hj _ => absurd (hst j) hj⟩
  have hu : UniqueIds T := by
    rw [hT]
    exact run_uniqueIds hb ops _ hinit hd
  have hst : ∀ j, (T j).status = RUNNABLE ∨ (T j).status = STOPPED := by
    rw [hT]
    exact run_status hb ops ⟨initScheduler tl0, []⟩ (fun j => by
      show (initScheduler tl0 j).status = RUNNABLE ∨ (initScheduler tl0 j).status = STOPPED
      rw [initScheduler_apply]
      exact Or.inr rfl)
  refine ⟨hu.1, hu.2, fun j hj => ?_⟩
  have hlow : ∀ k, k < j → (T k).id ≠ (T j).id := by
    intro k hk hid
    by_cases hks : (T k).status = STOPPED
    · exact hu.2 k j hks hj hid hk
    · exact absurd (hu.1 k j hks hj hid) (ne_of_lt hk)
  refine ⟨getTaskStatus_eq_status _ T j rfl hlow, ?_, deleteTask_eq_update _ T j rfl hlow⟩
  rcases hst j with h | h
  · exact h
  · exact absurd h hj

/-- Witness of C17: ids 1 and 2 are added and deleted, then id 2 is added again
and lands in slot 0, below the removed slot 1 that still carries id 2. -/
theorem unique_id_discipline_witness :
    Inert portTasks
      ∧ disciplined portTasks
          [Op.add 1 0x100 1, Op.add 2 0x104 2, Op.del 2, Op.del 1, Op.tick, Op.dispatch,
            Op.add 2 0x108 3] ⟨initScheduler zeroList, []⟩ = true
      ∧ ((run portTasks
          [Op.add 1 0x100 1, Op.add 2 0x104 2, Op.del 2, Op.del 1, Op.tick, Op.dispatch,
            Op.add 2 0x108 3] ⟨initScheduler zeroList, []⟩).task_list 0).status ≠ STOPPED
      ∧ (getTaskStatus ((run portTasks
          [Op.add 1 0x100 1, Op.add 2 0x104 2, Op.del 2, Op.del 1, Op.tick, Op.dispatch,
            Op.add 2 0x108 3] ⟨initScheduler zeroList, []⟩).task_list 0).id (run portTasks
          [Op.add 1 0x100 1, Op.add 2 0x104 2, Op.del 2, Op.del 1, Op.tick, Op.dispatch,
            Op.add 2 0x108 3] ⟨initScheduler zeroList, []⟩).task_list
          = ((run portTasks
          [Op.add 1 0x100 1, Op.add 2 0x104 2, Op.del 2, Op.del 1, Op.tick, Op.dispatch,
            Op.add 2 0x108 3] ⟨initScheduler zeroList, []⟩).task_list 0).status
        ∧ ((run portTasks
          [Op.add 1 0x100 1, Op.add 2 0x104 2, Op.del 2, Op.del 1, Op.tick, Op.dispatch,
            Op.add 2 0x108 3] ⟨initScheduler zeroList, []⟩).task_list 0).status = RUNNABLE) :=
  ⟨fun _ _ => rfl, by decide, by decide,
    ((unique_id_discipline portTasks (fun _ _ => rfl) zeroList
      [Op.add 1 0x100 1, Op.add 2 0x104 2, Op.del 2, Op.del 1, Op.tick, Op.dispatch,
        Op.add 2 0x108 3] (by decide) _ rfl).2.2 0 (by decide)).1,
    ((unique_id_discipline portTasks (fun _ _ => rfl) zeroList
      [Op.add 1 0x100 1, Op.add 2 0x104 2, Op.del 2, Op.del 1, Op.tick, Op.dispatch,
        Op.add 2 0x108 3] (by decide) _ rfl).2.2 0 (by decide)).2.1⟩

end TaskScheduler
